import Mathlib

/-!
# OptimalGainSelection: validator and enumerator

A shallow embedding of `src/OptimalGainSelection.cpp`.

* `double` values are rationals `ℚ`, and every two values are comparable (NaN is outside
  the model). The function is embedded twice:
  * `validLoopWith`, `isValidConfigurationWith`, `totalCostWith`, `loopBodyWith` and
    `mainLoopWith` take the addition of doubles as a parameter `add`, of which nothing is
    assumed; `binary64Add` is the correctly rounded addition (with `DBL_INF` standing for
    an infinite result). Statements about the accumulated totals are made on these.
  * `validLoop`, `isValidConfiguration`, `totalCost`, `loopBody` and `mainLoop` are the
    instance of exact addition (`validLoopWith_exact`, `mainLoopWith_exact`), used for
    statements that compare outputs of the code or evaluate it on small exact values.
* `std::numeric_limits<double>::max()` is the rational `DBL_MAX`.
* `std::vector<Component>` is `List Component`; `std::string` is `String`.
* The early `return false` inside the loop of `isValidConfiguration` is the `none`
  result of `validLoop`.
* The three nested `for` loops of `main` are three nested left folds over the indices
  `0, 1, ..., components.size() - 1` (`List.finRange`), threading the pair
  `(bestConfiguration, minCost)` as a `BestResult`.
-/

set_option linter.unusedVariables false

/-! ## Definitions -/


/-- Component structure (lines 6-12). -/
structure Component where
  type : String
  gain : ℚ
  cost : ℚ
  p1dB : ℚ
  leakage : ℚ
deriving DecidableEq

/-- The `for` loop of `isValidConfiguration` (lines 19-29), started with the running
`totalGain` and `totalLeakage`: `none` is the early `return false` of line 27, and
`some (totalGain, totalLeakage)` the two accumulators when the loop runs to its end. -/
def validLoop : List Component → ℚ → ℚ → Option (ℚ × ℚ)
  | [], totalGain, totalLeakage => some (totalGain, totalLeakage)
  | comp :: rest, totalGain, totalLeakage =>
    let totalGain :=
      if comp.type = "amplifier" ∨ comp.type = "attenuator" then totalGain + comp.gain
      else totalGain
    let totalLeakage :=
      if comp.type = "switch" then totalLeakage + comp.leakage else totalLeakage
    if comp.type = "amplifier" ∧ totalGain > comp.p1dB then none
    else validLoop rest totalGain totalLeakage

/-- Function `isValidConfiguration` (lines 15-33). -/
def isValidConfiguration (configuration : List Component)
    (requiredGain maxLeakage maxPower : ℚ) : Bool :=
  match validLoop configuration 0 0 with
  | none => false
  | some (totalGain, totalLeakage) =>
    decide (totalGain ≥ requiredGain ∧ totalLeakage ≤ maxLeakage)

/-- The state updated by the enumeration in `main`: `bestConfiguration` and `minCost`
(lines 50-51). -/
structure BestResult where
  bestConfiguration : List Component
  minCost : ℚ
deriving DecidableEq

/-- The value of `std::numeric_limits<double>::max()`, that is `(2^53 - 1) * 2^971`. -/
def DBL_MAX : ℚ :=
  179769313486231570814527423731704356798070567525844996598917476803157260780028538760589558632766878171540458953514382464234321326889464182768467546703537516986049910576551282076245490090389328944075868508455133942304583236903222948165808559332123348274797826204144723168738177180919299881250404026184124858368

/-- The cost loop of lines 67-70: `totalCost` starts at `0.0` and adds each `comp.cost`. -/
def totalCost (configuration : List Component) : ℚ :=
  configuration.foldl (fun totalCost comp => totalCost + comp.cost) 0

/-- The body of the innermost loop of `main` (lines 57-77) at the indices `i`, `j`, `k`,
as a function of the best result so far. -/
def loopBody (components : List Component) (requiredGain maxLeakage maxPower : ℚ)
    (s : BestResult) (i j k : Fin components.length) : BestResult :=
  if (components.get i).type ≠ "power divider" ∧ (components.get j).type ≠ "power divider" ∧
      (components.get k).type ≠ "power divider" then
    s
  else
    let configuration := [components.get i, components.get j, components.get k]
    if isValidConfiguration configuration requiredGain maxLeakage maxPower = true then
      let totalCost := totalCost configuration
      if totalCost < s.minCost then
        { bestConfiguration := configuration, minCost := totalCost }
      else s
    else s

/-- The enumeration of `main` (lines 50-80): the three nested loops over the indices of
`components`, from the initial state `(empty, DBL_MAX)`. -/
def mainLoop (components : List Component) (requiredGain maxLeakage maxPower : ℚ) :
    BestResult :=
  (List.finRange components.length).foldl
    (fun s i =>
      (List.finRange components.length).foldl
        (fun s j =>
          (List.finRange components.length).foldl
            (fun s k => loopBody components requiredGain maxLeakage maxPower s i j k) s)
        s)
    { bestConfiguration := [], minCost := DBL_MAX }

/-- The compiled-in catalog of `main` (lines 37-43). -/
def components : List Component :=
  [ ⟨"amplifier", 20, 50, 10, 0⟩,
    ⟨"switch", -1, 10, 0, 1 / 100⟩,
    ⟨"variable attenuator", -10, 20, 0, 0⟩,
    ⟨"fixed attenuator", -5, 5, 0, 0⟩,
    ⟨"power divider", -3, 15, 0, 0⟩ ]

/-- The compiled-in required gain (line 46). -/
def requiredGain : ℚ := 15

/-- The compiled-in maximum leakage (line 47). -/
def maxLeakage : ℚ := 1 / 20

/-- The compiled-in maximum power (line 48). -/
def maxPower : ℚ := 10

/-! ### Specification-side definitions -/

/-- Total leakage of a sequence as the specification words it: the sum of `leakage` over
the components of kind switch. -/
def switchLeakage (l : List Component) : ℚ :=
  ((l.filter (fun c => c.type = "switch")).map (fun c => c.leakage)).sum

/-- The sequence contains at least one component of kind power divider. -/
def hasPowerDivider (configuration : List Component) : Prop :=
  ∃ c ∈ configuration, c.type = "power divider"

instance (configuration : List Component) : Decidable (hasPowerDivider configuration) :=
  inferInstanceAs (Decidable (∃ c ∈ configuration, c.type = "power divider"))

/-- The configuration built from the catalog entries at the indices `i`, `j`, `k`. -/
def triple (components : List Component) (i j k : Fin components.length) : List Component :=
  [components.get i, components.get j, components.get k]

/-- The candidate triple at the indices `i`, `j`, `k` contains a power divider (it is not
skipped by line 58) and the validator accepts it (line 65). -/
def qualifies (components : List Component) (requiredGain maxLeakage maxPower : ℚ)
    (i j k : Fin components.length) : Prop :=
  hasPowerDivider (triple components i j k) ∧
    isValidConfiguration (triple components i j k) requiredGain maxLeakage maxPower = true

instance (components : List Component) (requiredGain maxLeakage maxPower : ℚ)
    (i j k : Fin components.length) :
    Decidable (qualifies components requiredGain maxLeakage maxPower i j k) :=
  inferInstanceAs (Decidable (_ ∧ _))

/-- The index triple `(i, j, k)` comes no later than `(i2, j2, k2)` in the nested iteration:
lexicographic order with `i` most significant, then `j`, then `k`. -/
def lexLe {n : Nat} (i j k i2 j2 k2 : Fin n) : Prop :=
  i < i2 ∨ (i = i2 ∧ (j < j2 ∨ (j = j2 ∧ k ≤ k2)))

instance {n : Nat} (i j k i2 j2 k2 : Fin n) : Decidable (lexLe i j k i2 j2 k2) :=
  inferInstanceAs (Decidable (_ ∨ _))

/-- All index triples in the order in which the nested loops of `main` visit them. -/
def indexTriples (n : Nat) : List (Fin n × Fin n × Fin n) :=
  (List.finRange n).flatMap fun i =>
    (List.finRange n).flatMap fun j => (List.finRange n).map fun k => (i, j, k)

/-- The gain total as the specification's data model words it for the catalog: the sum of
`gain` over the components whose kind is amplifier, variable attenuator or fixed
attenuator. -/
def catalogKindsGain (l : List Component) : ℚ :=
  ((l.filter (fun c => c.type = "amplifier" ∨ c.type = "variable attenuator" ∨
      c.type = "fixed attenuator")).map (fun c => c.gain)).sum

/-- An amplifier with a generous power ceiling, used in worked examples. -/
def sampleAmplifier : Component := ⟨"amplifier", 20, 1, 100, 0⟩

/-- A power divider, used in worked examples. -/
def sampleDivider : Component := ⟨"power divider", -3, 15, 0, 0⟩

/-- A two-entry catalog used in worked examples. -/
def sampleCatalog : List Component := [sampleAmplifier, sampleDivider]

/-- The accumulation rule of lines 20-22 applied to every component of the sequence, without
the early return of lines 26-28: `totalGain` starts at `0.0` and a component adds its
`gain` when its type is "amplifier" or "attenuator". -/
def accumulatedGain (configuration : List Component) : ℚ :=
  configuration.foldl
    (fun totalGain comp =>
      if comp.type = "amplifier" ∨ comp.type = "attenuator" then totalGain + comp.gain
      else totalGain)
    0

/-- The component lines of the report (lines 84-86): one line per component of
`bestConfiguration`, carrying its type, gain and cost. -/
def reportedComponents (s : BestResult) : List (String × ℚ × ℚ) :=
  s.bestConfiguration.map fun comp => (comp.type, comp.gain, comp.cost)

/-! ### Binary64 addition

The additions of lines 21, 24 and 69 are additions of `double` values, which round. The
definitions below give the correctly rounded sum of two finite doubles as a function on
rationals, with `DBL_INF` standing for an infinite result. -/

/-- The rational `2^e` for an integer exponent `e`. -/
def pow2 (e : ℤ) : ℚ :=
  if 0 ≤ e then ((2 ^ e.toNat : ℕ) : ℚ) else 1 / ((2 ^ (-e).toNat : ℕ) : ℚ)

/-- The integer nearest to `x`, a tie going to the even one. -/
def roundHalfEven (x : ℚ) : ℤ :=
  if x - (Rat.floor x : ℚ) < 1 / 2 then Rat.floor x
  else if 1 / 2 < x - (Rat.floor x : ℚ) then Rat.floor x + 1
  else if Rat.floor x % 2 = 0 then Rat.floor x else Rat.floor x + 1

/-- The number of halvings that bring `n` below 2, that is `⌊log₂ n⌋` for `0 < n`, given
enough `fuel` (`n` itself always suffices). -/
def log2Floor : Nat → Nat → Nat
  | 0, _ => 0
  | fuel + 1, n => if n < 2 then 0 else log2Floor fuel (n / 2) + 1

/-- The exponent `e` with `2^e ≤ |x| < 2^(e+1)`, for `x ≠ 0`. -/
def binade (x : ℚ) : ℤ :=
  if pow2 ((log2Floor x.num.natAbs x.num.natAbs : ℤ) - (log2Floor x.den x.den : ℤ)) ≤ |x| then
    (log2Floor x.num.natAbs x.num.natAbs : ℤ) - (log2Floor x.den x.den : ℤ)
  else (log2Floor x.num.natAbs x.num.natAbs : ℤ) - (log2Floor x.den x.den : ℤ) - 1

/-- The stand-in for the double `+∞` (and `-DBL_INF` for `-∞`): `2^1024`, the first power
of two above `DBL_MAX`. -/
def DBL_INF : ℚ := 2 ^ 1024

/-- Rounding of a rational to the nearest double, ties to even: 53 significant bits, the
spacing `2^(-1074)` in the subnormal range, and an infinite result when the rounded value
leaves the finite range. -/
def roundBinary64 (x : ℚ) : ℚ :=
  if x = 0 then 0
  else if DBL_INF ≤ (roundHalfEven (x / pow2 (max (binade x - 52) (-1074))) : ℚ) *
      pow2 (max (binade x - 52) (-1074)) then DBL_INF
  else if (roundHalfEven (x / pow2 (max (binade x - 52) (-1074))) : ℚ) *
      pow2 (max (binade x - 52) (-1074)) ≤ -DBL_INF then -DBL_INF
  else (roundHalfEven (x / pow2 (max (binade x - 52) (-1074))) : ℚ) *
      pow2 (max (binade x - 52) (-1074))

/-- The sum of two doubles as `operator+` computes it: the exact sum rounded to the nearest
double; an infinite operand is returned as it is. (The sum of two opposite infinities, a
NaN, is outside the model; it cannot arise from finite component fields.) -/
def binary64Add (a b : ℚ) : ℚ :=
  if DBL_INF ≤ a ∨ a ≤ -DBL_INF then a
  else if DBL_INF ≤ b ∨ b ≤ -DBL_INF then b
  else roundBinary64 (a + b)

/-! ### The source with its additions as a parameter

The same functions as above with the addition of doubles passed as `add`. Nothing is
assumed of `add`, so what is proved for every `add` holds whatever the additions of lines
21, 24 and 69 round to; `binary64Add` is the instance used to evaluate them. The
definitions above are the instance of exact addition. -/

/-- The `for` loop of `isValidConfiguration` (lines 19-29) with the additions of lines 21
and 24 performed by `add`: `none` is the early `return false` of line 27. -/
def validLoopWith (add : ℚ → ℚ → ℚ) : List Component → ℚ → ℚ → Option (ℚ × ℚ)
  | [], totalGain, totalLeakage => some (totalGain, totalLeakage)
  | comp :: rest, totalGain, totalLeakage =>
    let totalGain :=
      if comp.type = "amplifier" ∨ comp.type = "attenuator" then add totalGain comp.gain
      else totalGain
    let totalLeakage :=
      if comp.type = "switch" then add totalLeakage comp.leakage else totalLeakage
    if comp.type = "amplifier" ∧ totalGain > comp.p1dB then none
    else validLoopWith add rest totalGain totalLeakage

/-- Function `isValidConfiguration` (lines 15-33) with its additions performed by `add`. -/
def isValidConfigurationWith (add : ℚ → ℚ → ℚ) (configuration : List Component)
    (requiredGain maxLeakage maxPower : ℚ) : Bool :=
  match validLoopWith add configuration 0 0 with
  | none => false
  | some (totalGain, totalLeakage) =>
    decide (totalGain ≥ requiredGain ∧ totalLeakage ≤ maxLeakage)

/-- The cost loop of lines 67-70 with the addition of line 69 performed by `add`. -/
def totalCostWith (add : ℚ → ℚ → ℚ) (configuration : List Component) : ℚ :=
  configuration.foldl (fun totalCost comp => add totalCost comp.cost) 0

/-- The body of the innermost loop of `main` (lines 57-77) with the additions performed by
`add`. -/
def loopBodyWith (add : ℚ → ℚ → ℚ) (components : List Component)
    (requiredGain maxLeakage maxPower : ℚ)
    (s : BestResult) (i j k : Fin components.length) : BestResult :=
  if (components.get i).type ≠ "power divider" ∧ (components.get j).type ≠ "power divider" ∧
      (components.get k).type ≠ "power divider" then
    s
  else
    let configuration := [components.get i, components.get j, components.get k]
    if isValidConfigurationWith add configuration requiredGain maxLeakage maxPower = true then
      let totalCost := totalCostWith add configuration
      if totalCost < s.minCost then
        { bestConfiguration := configuration, minCost := totalCost }
      else s
    else s

/-- The enumeration of `main` (lines 50-80) with the additions performed by `add`. -/
def mainLoopWith (add : ℚ → ℚ → ℚ) (components : List Component)
    (requiredGain maxLeakage maxPower : ℚ) : BestResult :=
  (List.finRange components.length).foldl
    (fun s i =>
      (List.finRange components.length).foldl
        (fun s j =>
          (List.finRange components.length).foldl
            (fun s k => loopBodyWith add components requiredGain maxLeakage maxPower s i j k) s)
        s)
    { bestConfiguration := [], minCost := DBL_MAX }

/-- The best-result state of `main` after the innermost loop body (lines 57-77) has processed
the index triples of `visited`, in that order, from the initial state of lines 50-51. -/
def stateAfterWith (add : ℚ → ℚ → ℚ) (components : List Component)
    (requiredGain maxLeakage maxPower : ℚ)
    (visited : List (Fin components.length × Fin components.length × Fin components.length)) :
    BestResult :=
  visited.foldl
    (fun s t => loopBodyWith add components requiredGain maxLeakage maxPower s t.1 t.2.1 t.2.2)
    { bestConfiguration := [], minCost := DBL_MAX }

/-- The candidate triple at the indices `i`, `j`, `k` contains a power divider (it is not
skipped by line 58) and the validator accepts it (line 65). -/
def qualifiesWith (add : ℚ → ℚ → ℚ) (components : List Component)
    (requiredGain maxLeakage maxPower : ℚ) (i j k : Fin components.length) : Prop :=
  hasPowerDivider (triple components i j k) ∧
    isValidConfigurationWith add (triple components i j k) requiredGain maxLeakage maxPower = true

instance (add : ℚ → ℚ → ℚ) (components : List Component) (requiredGain maxLeakage maxPower : ℚ)
    (i j k : Fin components.length) :
    Decidable (qualifiesWith add components requiredGain maxLeakage maxPower i j k) :=
  inferInstanceAs (Decidable (_ ∧ _))

/-- Total gain of a sequence as the specification words it, accumulated as the code
accumulates it (from `0.0`, left to right, by `add`): the `gain` of the components of kind
amplifier or attenuator, the attenuator kinds being "attenuator", "variable attenuator" and
"fixed attenuator". -/
def runningGainWith (add : ℚ → ℚ → ℚ) (l : List Component) : ℚ :=
  l.foldl
    (fun total c =>
      if c.type = "amplifier" ∨ c.type = "attenuator" ∨ c.type = "variable attenuator" ∨
          c.type = "fixed attenuator" then add total c.gain
      else total)
    0

/-- Total leakage of a sequence as the specification words it, accumulated as the code
accumulates it (from `0.0`, left to right, by `add`): the `leakage` of the components of
kind switch. -/
def switchLeakageWith (add : ℚ → ℚ → ℚ) (l : List Component) : ℚ :=
  l.foldl (fun total c => if c.type = "switch" then add total c.leakage else total) 0

/-- The exact sum of `gain` over the components of kind amplifier or attenuator. -/
def exactGainSum (l : List Component) : ℚ :=
  ((l.filter (fun c => c.type = "amplifier" ∨ c.type = "attenuator" ∨
      c.type = "variable attenuator" ∨ c.type = "fixed attenuator")).map (fun c => c.gain)).sum

/-- The exact sum of `cost` over the components of a sequence. -/
def exactCostSum (l : List Component) : ℚ :=
  (l.map (fun c => c.cost)).sum

/-- Three amplifiers of gains `2^53`, 1 and 1, each with `p1dB` `2^53`: the double
additions of line 21 give `2^53` at every step. -/
def roundingAmplifiers : List Component :=
  [⟨"amplifier", 9007199254740992, 0, 9007199254740992, 0⟩,
    ⟨"amplifier", 1, 0, 9007199254740992, 0⟩,
    ⟨"amplifier", 1, 0, 9007199254740992, 0⟩]

/-- A catalog of an amplifier of cost 1 and a power divider of cost `2^53`. -/
def roundingCatalog : List Component :=
  [⟨"amplifier", 20, 1, 100, 0⟩, ⟨"power divider", -3, 9007199254740992, 0, 0⟩]

/-- A catalog of a free amplifier of gain 10 and a power divider whose cost is the largest
finite double. -/
def sentinelCatalog : List Component :=
  [⟨"amplifier", 10, 0, 100, 0⟩, ⟨"power divider", 0, DBL_MAX, 0, 0⟩]

/-! ## Theorems -/

/-! ### The validator -/

theorem switchLeakage_cons (c : Component) (l : List Component) :
    switchLeakage (c :: l)
      = (if c.type = "switch" then c.leakage else 0) + switchLeakage l := by
  unfold switchLeakage
  by_cases h : c.type = "switch"
  · simp [List.filter_cons, h]
  · simp [List.filter_cons, h]

/-! ### The enumeration -/

theorem hasPowerDivider_triple (components : List Component) (i j k : Fin components.length) :
    hasPowerDivider (triple components i j k) ↔
      ¬ ((components.get i).type ≠ "power divider" ∧ (components.get j).type ≠ "power divider" ∧
        (components.get k).type ≠ "power divider") := by
  unfold hasPowerDivider triple
  simp only [List.mem_cons, List.mem_singleton, List.not_mem_nil, or_false]
  constructor
  · rintro ⟨c, hc | hc | hc, ht⟩ ⟨h1, h2, h3⟩
    · exact h1 (hc ▸ ht)
    · exact h2 (hc ▸ ht)
    · exact h3 (hc ▸ ht)
  · intro h
    by_cases h1 : (components.get i).type = "power divider"
    · exact ⟨_, Or.inl rfl, h1⟩
    by_cases h2 : (components.get j).type = "power divider"
    · exact ⟨_, Or.inr (Or.inl rfl), h2⟩
    by_cases h3 : (components.get k).type = "power divider"
    · exact ⟨_, Or.inr (Or.inr rfl), h3⟩
    exact absurd ⟨h1, h2, h3⟩ h

theorem loopBody_eq (components : List Component) (requiredGain maxLeakage maxPower : ℚ)
    (s : BestResult) (i j k : Fin components.length) :
    loopBody components requiredGain maxLeakage maxPower s i j k =
      if qualifies components requiredGain maxLeakage maxPower i j k ∧
          totalCost (triple components i j k) < s.minCost then
        { bestConfiguration := triple components i j k,
          minCost := totalCost (triple components i j k) }
      else s := by
  have hpd := hasPowerDivider_triple components i j k
  show (if (components.get i).type ≠ "power divider" ∧
        (components.get j).type ≠ "power divider" ∧ (components.get k).type ≠ "power divider"
      then s
      else if isValidConfiguration (triple components i j k) requiredGain maxLeakage maxPower
          = true then
        (if totalCost (triple components i j k) < s.minCost then
          { bestConfiguration := triple components i j k,
            minCost := totalCost (triple components i j k) }
        else s)
      else s) = _
  by_cases h : (components.get i).type ≠ "power divider" ∧
      (components.get j).type ≠ "power divider" ∧ (components.get k).type ≠ "power divider"
  · have hq : ¬ qualifies components requiredGain maxLeakage maxPower i j k :=
      fun hq => (hpd.mp hq.1) h
    rw [if_pos h, if_neg (fun hc => hq hc.1)]
  · rw [if_neg h]
    by_cases hv : isValidConfiguration (triple components i j k) requiredGain maxLeakage maxPower
        = true
    · have hq : qualifies components requiredGain maxLeakage maxPower i j k := ⟨hpd.mpr h, hv⟩
      rw [if_pos hv]
      by_cases hc : totalCost (triple components i j k) < s.minCost
      · rw [if_pos hc, if_pos ⟨hq, hc⟩]
      · rw [if_neg hc, if_neg (fun h2 => hc h2.2)]
    · have hq : ¬ qualifies components requiredGain maxLeakage maxPower i j k :=
        fun hq => hv hq.2
      rw [if_neg hv, if_neg (fun hc => hq hc.1)]

theorem foldl_flatMap_eq {α β γ : Type} (f : γ → β → γ) (g : α → List β) (l : List α) :
    ∀ s : γ, (l.flatMap g).foldl f s = l.foldl (fun s a => (g a).foldl f s) s := by
  induction l with
  | nil => intro s; rfl
  | cons a l ih => intro s; simp [List.flatMap_cons, List.foldl_append, ih]

theorem mainLoop_eq_foldl (components : List Component) (requiredGain maxLeakage maxPower : ℚ) :
    mainLoop components requiredGain maxLeakage maxPower =
      (indexTriples components.length).foldl
        (fun s t => loopBody components requiredGain maxLeakage maxPower s t.1 t.2.1 t.2.2)
        { bestConfiguration := [], minCost := DBL_MAX } := by
  unfold mainLoop indexTriples
  rw [foldl_flatMap_eq]
  congr 1
  funext s i
  rw [foldl_flatMap_eq]
  congr 1
  funext s j
  rw [List.foldl_map]

/-- A left fold that keeps the first strictly cheapest qualifying element: either nothing
qualified below the starting cost `M`, or the state is the element `x` of the list that
qualifies, is strictly cheaper than every qualifying element before it and not dearer than
any qualifying element after it. -/
theorem foldl_keep_cheapest {α : Type} (q : α → Prop) [DecidablePred q]
    (cfg : α → List Component) (cost : α → ℚ) (M : ℚ) (L : List α) :
    (L.foldl (fun s x => if q x ∧ cost x < s.minCost then
          ({ bestConfiguration := cfg x, minCost := cost x } : BestResult) else s)
        { bestConfiguration := [], minCost := M } = { bestConfiguration := [], minCost := M } ∧
      ∀ x ∈ L, q x → M ≤ cost x) ∨
    ∃ pre x post, L = pre ++ x :: post ∧ q x ∧ cost x < M ∧
      L.foldl (fun s x => if q x ∧ cost x < s.minCost then
          ({ bestConfiguration := cfg x, minCost := cost x } : BestResult) else s)
        { bestConfiguration := [], minCost := M } =
          { bestConfiguration := cfg x, minCost := cost x } ∧
      (∀ y ∈ pre, q y → cost x < cost y) ∧ (∀ y ∈ post, q y → cost x ≤ cost y) := by
  induction L using List.reverseRecOn with
  | nil => left; simp
  | append_singleton L z ih =>
    rw [List.foldl_append]
    simp only [List.foldl_cons, List.foldl_nil]
    rcases ih with ⟨hs, hall⟩ | ⟨pre, x, post, hL, hqx, hxM, hs, hpre, hpost⟩
    · rw [hs]
      by_cases hz : q z ∧ cost z < M
      · right
        refine ⟨L, z, [], rfl, hz.1, hz.2, by simp [hz], ?_, by simp⟩
        intro y hy hqy
        exact lt_of_lt_of_le hz.2 (hall y hy hqy)
      · left
        refine ⟨by simp [hz], ?_⟩
        intro y hy hqy
        rcases List.mem_append.mp hy with hy | hy
        · exact hall y hy hqy
        · have : y = z := by simpa using hy
          subst this
          exact not_lt.mp (fun hlt => hz ⟨hqy, hlt⟩)
    · right
      rw [hs]
      by_cases hz : q z ∧ cost z < cost x
      · refine ⟨L, z, [], rfl, hz.1, lt_trans hz.2 hxM, by simp [hz], ?_, by simp⟩
        intro y hy hqy
        rw [hL] at hy
        rcases List.mem_append.mp hy with hy | hy
        · exact lt_trans hz.2 (hpre y hy hqy)
        · rcases List.mem_cons.mp hy with hy | hy
          · subst hy; exact hz.2
          · exact lt_of_lt_of_le hz.2 (hpost y hy hqy)
      · refine ⟨pre, x, post ++ [z], by simp [hL], hqx, hxM, by simp [hz], hpre, ?_⟩
        intro y hy hqy
        rcases List.mem_append.mp hy with hy | hy
        · exact hpost y hy hqy
        · have : y = z := by simpa using hy
          subst this
          exact not_lt.mp (fun hlt => hz ⟨hqy, hlt⟩)

theorem mem_indexTriples {n : Nat} (t : Fin n × Fin n × Fin n) : t ∈ indexTriples n := by
  obtain ⟨i, j, k⟩ := t
  unfold indexTriples
  simp only [List.mem_flatMap, List.mem_map]
  exact ⟨i, List.mem_finRange i, j, List.mem_finRange j, k, List.mem_finRange k, rfl⟩

theorem pairwise_indexTriples (n : Nat) :
    (indexTriples n).Pairwise
      (fun a b => a ≠ b ∧ lexLe a.1 a.2.1 a.2.2 b.1 b.2.1 b.2.2) := by
  unfold indexTriples
  rw [List.pairwise_flatMap]
  constructor
  · intro i _
    rw [List.pairwise_flatMap]
    constructor
    · intro j _
      rw [List.pairwise_map]
      refine (List.pairwise_lt_finRange n).imp ?_
      intro a b hab
      refine ⟨?_, Or.inr ⟨rfl, Or.inr ⟨rfl, le_of_lt hab⟩⟩⟩
      intro h
      simp only [Prod.mk.injEq, true_and] at h
      exact absurd h (ne_of_lt hab)
    · refine (List.pairwise_lt_finRange n).imp ?_
      intro a b hab x hx y hy
      simp only [List.mem_map] at hx hy
      obtain ⟨k1, _, rfl⟩ := hx
      obtain ⟨k2, _, rfl⟩ := hy
      refine ⟨?_, Or.inr ⟨rfl, Or.inl hab⟩⟩
      intro h
      simp only [Prod.mk.injEq, true_and] at h
      exact absurd h.1 (ne_of_lt hab)
  · refine (List.pairwise_lt_finRange n).imp ?_
    intro a b hab x hx y hy
    simp only [List.mem_flatMap, List.mem_map] at hx hy
    obtain ⟨j1, _, k1, _, rfl⟩ := hx
    obtain ⟨j2, _, k2, _, rfl⟩ := hy
    refine ⟨?_, Or.inl hab⟩
    intro h
    simp only [Prod.mk.injEq] at h
    exact absurd h.1 (ne_of_lt hab)

/-- The result of the enumeration: either nothing is recorded and no qualifying triple costs
less than `DBL_MAX`, or the recorded state is a qualifying triple of minimal cost which is
first in iteration order among the qualifying triples of that cost. -/
theorem mainLoop_spec (components : List Component) (requiredGain maxLeakage maxPower : ℚ) :
    (mainLoop components requiredGain maxLeakage maxPower =
        { bestConfiguration := [], minCost := DBL_MAX } ∧
      ∀ i j k, qualifies components requiredGain maxLeakage maxPower i j k →
        DBL_MAX ≤ totalCost (triple components i j k)) ∨
    ∃ i j k, qualifies components requiredGain maxLeakage maxPower i j k ∧
      totalCost (triple components i j k) < DBL_MAX ∧
      mainLoop components requiredGain maxLeakage maxPower =
        { bestConfiguration := triple components i j k,
          minCost := totalCost (triple components i j k) } ∧
      ∀ i2 j2 k2, qualifies components requiredGain maxLeakage maxPower i2 j2 k2 →
        totalCost (triple components i j k) ≤ totalCost (triple components i2 j2 k2) ∧
        (totalCost (triple components i2 j2 k2) ≤ totalCost (triple components i j k) →
          lexLe i j k i2 j2 k2) := by
  have hfun : (fun (s : BestResult) (t : Fin components.length × Fin components.length ×
        Fin components.length) =>
        loopBody components requiredGain maxLeakage maxPower s t.1 t.2.1 t.2.2) =
      (fun s t => if qualifies components requiredGain maxLeakage maxPower t.1 t.2.1 t.2.2 ∧
          totalCost (triple components t.1 t.2.1 t.2.2) < s.minCost then
            ({ bestConfiguration := triple components t.1 t.2.1 t.2.2,
               minCost := totalCost (triple components t.1 t.2.1 t.2.2) } : BestResult)
          else s) := by
    funext s t
    exact loopBody_eq components requiredGain maxLeakage maxPower s t.1 t.2.1 t.2.2
  rw [mainLoop_eq_foldl, hfun]
  have hpw := pairwise_indexTriples components.length
  rcases foldl_keep_cheapest
      (fun t : Fin components.length × Fin components.length × Fin components.length =>
        qualifies components requiredGain maxLeakage maxPower t.1 t.2.1 t.2.2)
      (fun t => triple components t.1 t.2.1 t.2.2)
      (fun t => totalCost (triple components t.1 t.2.1 t.2.2)) DBL_MAX
      (indexTriples components.length) with
    ⟨hs, hall⟩ | ⟨pre, x, post, hL, hqx, hxM, hs, hpre, hpost⟩
  · left
    exact ⟨hs, fun i j k hq => hall (i, j, k) (mem_indexTriples _) hq⟩
  · right
    refine ⟨x.1, x.2.1, x.2.2, hqx, hxM, hs, ?_⟩
    intro i2 j2 k2 hq
    have hmem : (i2, j2, k2) ∈ indexTriples components.length := mem_indexTriples _
    rw [hL] at hmem hpw
    rw [List.pairwise_append] at hpw
    obtain ⟨_, hpw2, _⟩ := hpw
    rw [List.pairwise_cons] at hpw2
    rcases List.mem_append.mp hmem with hm | hm
    · have hlt := hpre (i2, j2, k2) hm hq
      exact ⟨le_of_lt hlt, fun hle => absurd hlt (not_lt.mpr hle)⟩
    · rcases List.mem_cons.mp hm with hm | hm
      · have h1 : i2 = x.1 := congrArg Prod.fst hm
        have h2 : j2 = x.2.1 := congrArg (fun t => t.2.1) hm
        have h3 : k2 = x.2.2 := congrArg (fun t => t.2.2) hm
        subst h1 h2 h3
        exact ⟨le_refl _, fun _ => Or.inr ⟨rfl, Or.inr ⟨rfl, le_refl _⟩⟩⟩
      · have hle := hpost (i2, j2, k2) hm hq
        have hlex := (hpw2.1 (i2, j2, k2) hm).2
        exact ⟨hle, fun _ => hlex⟩

theorem triple_ne_nil (components : List Component) (i j k : Fin components.length) :
    triple components i j k ≠ [] := by
  simp [triple]

theorem lexLe_antisymm {n : Nat} {i j k i2 j2 k2 : Fin n}
    (h1 : lexLe i j k i2 j2 k2) (h2 : lexLe i2 j2 k2 i j k) :
    i = i2 ∧ j = j2 ∧ k = k2 := by
  unfold lexLe at h1 h2
  rcases h1 with h1 | ⟨e1, h1 | ⟨e2, h1⟩⟩
  · rcases h2 with h2 | ⟨e1, _⟩
    · exact absurd h1 (not_lt.mpr (le_of_lt h2))
    · exact absurd h1 (e1 ▸ lt_irrefl _)
  · rcases h2 with h2 | ⟨_, h2 | ⟨e2, _⟩⟩
    · exact absurd h2 (e1 ▸ lt_irrefl _)
    · exact absurd h1 (not_lt.mpr (le_of_lt h2))
    · exact absurd h1 (e2 ▸ lt_irrefl _)
  · rcases h2 with h2 | ⟨_, h2 | ⟨_, h2⟩⟩
    · exact absurd h2 (e1 ▸ lt_irrefl _)
    · exact absurd h2 (e2 ▸ lt_irrefl _)
    · exact ⟨e1, e2, le_antisymm h1 h2⟩

/-! ### Claims about the validator and the enumeration -/

/-- C3: a triple with zero power-divider components is never the configuration selected
by the enumeration in `main`. -/
theorem mainLoop_never_selects_without_divider (components : List Component)
    (requiredGain maxLeakage maxPower : ℚ) (i j k : Fin components.length)
    (hno : ¬ hasPowerDivider [components.get i, components.get j, components.get k]) :
    (mainLoop components requiredGain maxLeakage maxPower).bestConfiguration ≠
      [components.get i, components.get j, components.get k] := by
  rcases mainLoop_spec components requiredGain maxLeakage maxPower with
    ⟨hs, _⟩ | ⟨i0, j0, k0, hq, _, hs, _⟩
  · rw [hs]
    exact fun h => List.noConfusion h
  · rw [hs]
    intro h
    apply hno
    have hpd := hq.1
    rw [show triple components i0 j0 k0 =
      [components.get i, components.get j, components.get k] from h] at hpd
    exact hpd

/-- C3, worked example: on the sample catalog the triple of three amplifiers has no power
divider, is accepted by the validator and is strictly cheaper than the recorded minimum,
and it is not the configuration selected. -/
theorem mainLoop_never_selects_without_divider_witness :
    ¬ hasPowerDivider [sampleCatalog.get ⟨0, by decide⟩, sampleCatalog.get ⟨0, by decide⟩,
        sampleCatalog.get ⟨0, by decide⟩] ∧
    isValidConfiguration [sampleCatalog.get ⟨0, by decide⟩, sampleCatalog.get ⟨0, by decide⟩,
        sampleCatalog.get ⟨0, by decide⟩] 15 (1 / 20) 10 = true ∧
    totalCost [sampleCatalog.get ⟨0, by decide⟩, sampleCatalog.get ⟨0, by decide⟩,
        sampleCatalog.get ⟨0, by decide⟩] < (mainLoop sampleCatalog 15 (1 / 20) 10).minCost ∧
    (mainLoop sampleCatalog 15 (1 / 20) 10).bestConfiguration ≠
      [sampleCatalog.get ⟨0, by decide⟩, sampleCatalog.get ⟨0, by decide⟩,
        sampleCatalog.get ⟨0, by decide⟩] :=
  ⟨by decide!, by decide!, by decide!,
    mainLoop_never_selects_without_divider sampleCatalog 15 (1 / 20) 10
      ⟨0, by decide⟩ ⟨0, by decide⟩ ⟨0, by decide⟩ (by decide!)⟩

/-- C4 (evaluation at the failing input): with the catalog triple of indices (3,3,4)
(fixed attenuator, fixed attenuator, power divider), required gain -4 and max leakage 0.05,
`isValidConfiguration` returns true, because line 20 compares the kind with "attenuator"
and so counts neither attenuator of the catalog (its running total stays 0), while the
sum of `gain` over the amplifier, variable-attenuator and fixed-attenuator components is
-10, which is below the required -4. -/
theorem isValidConfiguration_skips_catalog_attenuators :
    isValidConfiguration
        [components.get ⟨3, by decide⟩, components.get ⟨3, by decide⟩,
          components.get ⟨4, by decide⟩] (-4) maxLeakage maxPower = true ∧
    validLoop
        [components.get ⟨3, by decide⟩, components.get ⟨3, by decide⟩,
          components.get ⟨4, by decide⟩] 0 0 = some (0, 0) ∧
    catalogKindsGain
        [components.get ⟨3, by decide⟩, components.get ⟨3, by decide⟩,
          components.get ⟨4, by decide⟩] = -10 ∧
    ¬ (catalogKindsGain
        [components.get ⟨3, by decide⟩, components.get ⟨3, by decide⟩,
          components.get ⟨4, by decide⟩] ≥ -4) := by
  decide!

/-- C6: for the compiled-in catalog with required gain 15.0 and max leakage 0.05,
`isValidConfiguration` returns false on the triple of catalog indices (0,4,3)
(amplifier, power divider, fixed attenuator) and on the triple of catalog indices (0,4,1)
(amplifier, power divider, switch). -/
theorem isValidConfiguration_catalog_scenario :
    isValidConfiguration
        [components.get ⟨0, by decide⟩, components.get ⟨4, by decide⟩,
          components.get ⟨3, by decide⟩] requiredGain maxLeakage maxPower = false ∧
    isValidConfiguration
        [components.get ⟨0, by decide⟩, components.get ⟨4, by decide⟩,
          components.get ⟨1, by decide⟩] requiredGain maxLeakage maxPower = false := by
  decide!

/-- C7: for a catalog that contains no component of kind power divider, whatever the
thresholds and the other field values, the enumeration in `main` ends with
`bestConfiguration` still empty and `minCost` still at its initial sentinel. -/
theorem mainLoop_without_divider (components : List Component)
    (requiredGain maxLeakage maxPower : ℚ)
    (hno : ∀ c ∈ components, c.type ≠ "power divider") :
    (mainLoop components requiredGain maxLeakage maxPower).bestConfiguration = [] ∧
      (mainLoop components requiredGain maxLeakage maxPower).minCost = DBL_MAX := by
  rcases mainLoop_spec components requiredGain maxLeakage maxPower with
    ⟨hs, _⟩ | ⟨i, j, k, hq, _, _, _⟩
  · rw [hs]
    exact ⟨rfl, rfl⟩
  · exfalso
    obtain ⟨c, hc, ht⟩ := hq.1
    have hmem : c ∈ components := by
      unfold triple at hc
      simp only [List.mem_cons, List.mem_singleton, List.not_mem_nil, or_false] at hc
      rcases hc with rfl | rfl | rfl <;> exact List.get_mem _ _ _
    exact hno c hmem ht

/-- C7, worked example: a catalog of one amplifier and one switch, with thresholds that
the triples of amplifiers meet, records nothing. -/
theorem mainLoop_without_divider_witness :
    isValidConfiguration
        [⟨"amplifier", 20, 1, 100, 0⟩, ⟨"amplifier", 20, 1, 100, 0⟩, ⟨"amplifier", 20, 1, 100, 0⟩]
        15 (1 / 20) 10 = true ∧
    (mainLoop [⟨"amplifier", 20, 1, 100, 0⟩, ⟨"switch", -1, 10, 0, 1 / 100⟩]
        15 (1 / 20) 10).bestConfiguration = [] ∧
    (mainLoop [⟨"amplifier", 20, 1, 100, 0⟩, ⟨"switch", -1, 10, 0, 1 / 100⟩]
        15 (1 / 20) 10).minCost = DBL_MAX :=
  ⟨by decide!,
    mainLoop_without_divider [⟨"amplifier", 20, 1, 100, 0⟩, ⟨"switch", -1, 10, 0, 1 / 100⟩]
      15 (1 / 20) 10 (by decide)⟩

/-- C8: when every triple cost is below the initial sentinel, the enumeration in `main`
ends in the none-found state (`bestConfiguration` empty, `minCost` equal to the sentinel)
if and only if no ordered triple of catalog entries both contains a power divider and is
accepted by `isValidConfiguration`; otherwise a configuration is recorded. -/
theorem mainLoop_none_found_iff (components : List Component)
    (requiredGain maxLeakage maxPower : ℚ)
    (hcost : ∀ i j k : Fin components.length,
      totalCost [components.get i, components.get j, components.get k] < DBL_MAX) :
    (((mainLoop components requiredGain maxLeakage maxPower).bestConfiguration = [] ∧
        (mainLoop components requiredGain maxLeakage maxPower).minCost = DBL_MAX) ↔
      ¬ ∃ i j k : Fin components.length,
        hasPowerDivider [components.get i, components.get j, components.get k] ∧
        isValidConfiguration [components.get i, components.get j, components.get k]
          requiredGain maxLeakage maxPower = true) ∧
    ((∃ i j k : Fin components.length,
        hasPowerDivider [components.get i, components.get j, components.get k] ∧
        isValidConfiguration [components.get i, components.get j, components.get k]
          requiredGain maxLeakage maxPower = true) →
      (mainLoop components requiredGain maxLeakage maxPower).bestConfiguration ≠ [] ∧
        (mainLoop components requiredGain maxLeakage maxPower).minCost < DBL_MAX) := by
  rcases mainLoop_spec components requiredGain maxLeakage maxPower with
    ⟨hs, hall⟩ | ⟨i, j, k, hq, hlt, hs, _⟩
  · have hnone : ¬ ∃ i j k : Fin components.length,
        hasPowerDivider [components.get i, components.get j, components.get k] ∧
        isValidConfiguration [components.get i, components.get j, components.get k]
          requiredGain maxLeakage maxPower = true := by
      rintro ⟨i, j, k, hpd, hv⟩
      exact absurd (hcost i j k) (not_lt.mpr (hall i j k ⟨hpd, hv⟩))
    rw [hs]
    exact ⟨⟨fun _ => hnone, fun _ => ⟨rfl, rfl⟩⟩, fun h => absurd h hnone⟩
  · have hsome : ∃ i j k : Fin components.length,
        hasPowerDivider [components.get i, components.get j, components.get k] ∧
        isValidConfiguration [components.get i, components.get j, components.get k]
          requiredGain maxLeakage maxPower = true := ⟨i, j, k, hq.1, hq.2⟩
    rw [hs]
    refine ⟨⟨fun h => absurd h.1 (triple_ne_nil components i j k), fun h => absurd hsome h⟩,
      fun _ => ⟨triple_ne_nil components i j k, hlt⟩⟩

/-- C8, worked example: on the sample catalog with required gain 15 every triple cost is
below the sentinel, a triple with a power divider is accepted, and a configuration is
recorded. -/
theorem mainLoop_none_found_iff_witness :
    (∀ i j k : Fin sampleCatalog.length,
      totalCost [sampleCatalog.get i, sampleCatalog.get j, sampleCatalog.get k] < DBL_MAX) ∧
    (((mainLoop sampleCatalog 15 (1 / 20) 10).bestConfiguration = [] ∧
        (mainLoop sampleCatalog 15 (1 / 20) 10).minCost = DBL_MAX) ↔
      ¬ ∃ i j k : Fin sampleCatalog.length,
        hasPowerDivider [sampleCatalog.get i, sampleCatalog.get j, sampleCatalog.get k] ∧
        isValidConfiguration [sampleCatalog.get i, sampleCatalog.get j, sampleCatalog.get k]
          15 (1 / 20) 10 = true) ∧
    ((∃ i j k : Fin sampleCatalog.length,
        hasPowerDivider [sampleCatalog.get i, sampleCatalog.get j, sampleCatalog.get k] ∧
        isValidConfiguration [sampleCatalog.get i, sampleCatalog.get j, sampleCatalog.get k]
          15 (1 / 20) 10 = true) →
      (mainLoop sampleCatalog 15 (1 / 20) 10).bestConfiguration ≠ [] ∧
        (mainLoop sampleCatalog 15 (1 / 20) 10).minCost < DBL_MAX) :=
  ⟨by decide!, mainLoop_none_found_iff sampleCatalog 15 (1 / 20) 10 (by decide!)⟩

/-- C9: the `maxPower` parameter is inert: for every two values `p` and `q` of `maxPower`,
`isValidConfiguration` gives the same verdict, and hence the enumeration in `main` gives
the same result. -/
theorem maxPower_inert (configuration components : List Component)
    (requiredGain maxLeakage p q : ℚ) :
    isValidConfiguration configuration requiredGain maxLeakage p =
        isValidConfiguration configuration requiredGain maxLeakage q ∧
      mainLoop components requiredGain maxLeakage p =
        mainLoop components requiredGain maxLeakage q :=
  ⟨rfl, rfl⟩

/-- C10: `isValidConfiguration` is order-sensitive: there are three components and
thresholds such that one ordering is accepted and another ordering of the same multiset
is rejected. With an attenuator of gain -15 before the amplifier of gain 20 and `p1dB` 10
the running gain at the amplifier is 5; with the amplifier first it is 20. -/
theorem isValidConfiguration_order_sensitive :
    ∃ (a b c : Component) (requiredGain maxLeakage maxPower : ℚ),
      List.Perm [a, b, c] [b, a, c] ∧
      isValidConfiguration [a, b, c] requiredGain maxLeakage maxPower = true ∧
      isValidConfiguration [b, a, c] requiredGain maxLeakage maxPower = false :=
  ⟨⟨"attenuator", -15, 5, 0, 0⟩, ⟨"amplifier", 20, 50, 10, 0⟩, ⟨"power divider", -3, 15, 0, 0⟩,
    5, 1 / 20, 10, List.Perm.swap _ _ _, by decide!, by decide!⟩

/-- The literal of `DBL_MAX` is the largest finite binary64 value. -/
theorem DBL_MAX_eq : DBL_MAX = (2 ^ 53 - 1) * 2 ^ 971 := by
  norm_num [DBL_MAX]

/-! ### The compiled-in scenario -/

/-- C11 (the claim as stated fails): for the catalog triple (0,4,1) (amplifier, power
divider, switch) the accumulation rule of lines 20-22 gives the total gain 20, not
20 + (-3) = 17: the power divider's -3 is not counted. -/
theorem accumulatedGain_divider_not_counted :
    accumulatedGain
        [components.get ⟨0, by decide⟩, components.get ⟨4, by decide⟩,
          components.get ⟨1, by decide⟩] = 20 ∧
    ¬ (accumulatedGain
        [components.get ⟨0, by decide⟩, components.get ⟨4, by decide⟩,
          components.get ⟨3, by decide⟩] = 12 ∧
      accumulatedGain
        [components.get ⟨0, by decide⟩, components.get ⟨4, by decide⟩,
          components.get ⟨1, by decide⟩] = 17) := by
  decide!

/-- C11 (amended): for the catalog triple (0,4,1) the accumulation rule of lines 20-22
gives the total gain 20, the amplifier's 20 being counted and neither the power divider's
-3 nor the switch's -1; for the catalog triple (0,4,3) the power divider's -3 is not
counted either, the total being that of the components (0,3) without the power divider. -/
theorem accumulatedGain_catalog_scenario :
    accumulatedGain
        [components.get ⟨0, by decide⟩, components.get ⟨4, by decide⟩,
          components.get ⟨1, by decide⟩] = 20 ∧
    accumulatedGain
        [components.get ⟨0, by decide⟩, components.get ⟨4, by decide⟩,
          components.get ⟨1, by decide⟩] = (components.get ⟨0, by decide⟩).gain ∧
    accumulatedGain
        [components.get ⟨0, by decide⟩, components.get ⟨4, by decide⟩,
          components.get ⟨3, by decide⟩] =
      accumulatedGain [components.get ⟨0, by decide⟩, components.get ⟨3, by decide⟩] := by
  decide!

/-- The accumulation rule without the early return agrees with the loop of
`isValidConfiguration` whenever that loop runs to its end. -/
theorem validLoop_gain_eq_accumulatedGain (cfg : List Component) :
    ∀ g l g2 l2 : ℚ, validLoop cfg g l = some (g2, l2) →
      g2 = cfg.foldl
        (fun totalGain comp =>
          if comp.type = "amplifier" ∨ comp.type = "attenuator" then totalGain + comp.gain
          else totalGain) g := by
  induction cfg with
  | nil =>
    intro g l g2 l2 h
    simp only [validLoop, Option.some.injEq, Prod.mk.injEq] at h
    simpa using h.1.symm
  | cons c rest ih =>
    intro g l g2 l2 h
    rw [validLoop] at h
    by_cases hc : c.type = "amplifier" ∧
        (if c.type = "amplifier" ∨ c.type = "attenuator" then g + c.gain else g) > c.p1dB
    · rw [if_pos hc] at h
      exact absurd h (by simp)
    · rw [if_neg hc] at h
      rw [List.foldl_cons]
      exact ih _ _ _ _ h

/-- C13: with the compiled-in catalog of five components and the compiled-in constants,
none of the 125 ordered index triples both contains a power divider and is accepted by
`isValidConfiguration`, so the enumeration in `main` ends with `bestConfiguration` empty
and `minCost` equal to its initial sentinel, and the report has no component lines. -/
theorem mainLoop_compiled_in_none_found :
    components.length = 5 ∧ (indexTriples components.length).length = 125 ∧
    (∀ i j k : Fin components.length,
      ¬ (hasPowerDivider [components.get i, components.get j, components.get k] ∧
        isValidConfiguration [components.get i, components.get j, components.get k]
          requiredGain maxLeakage maxPower = true)) ∧
    (mainLoop components requiredGain maxLeakage maxPower).bestConfiguration = [] ∧
    (mainLoop components requiredGain maxLeakage maxPower).minCost = DBL_MAX ∧
    reportedComponents (mainLoop components requiredGain maxLeakage maxPower) = [] := by
  decide!

/-! ### Catalog triples and threshold monotonicity -/

/-- On sequences of catalog components the loop of `isValidConfiguration`, started with a
running gain above -10, stops at the first amplifier (whose running gain then exceeds its
`p1dB` of 10) and otherwise leaves the gain untouched and sums the switch leakage. -/
theorem validLoop_catalog (cfg : List Component) (hcat : ∀ c ∈ cfg, c ∈ components) :
    ∀ g l : ℚ, -10 < g →
      validLoop cfg g l =
        if ∃ c ∈ cfg, c.type = "amplifier" then none else some (g, l + switchLeakage cfg) := by
  induction cfg with
  | nil => intro g l _; simp [validLoop, switchLeakage]
  | cons c rest ih =>
    intro g l hg
    have hrest : ∀ c ∈ rest, c ∈ components := fun x hx => hcat x (List.mem_cons_of_mem _ hx)
    have hc : c ∈ components := hcat c (List.mem_cons_self _ _)
    have ihr := ih hrest
    simp only [components, List.mem_cons, List.mem_singleton, List.not_mem_nil, or_false] at hc
    rcases hc with rfl | rfl | rfl | rfl | rfl
    · have h20 : (10 : ℚ) < g + 20 := by linarith
      simp [validLoop, h20]
    · rw [validLoop]
      simp only [switchLeakage_cons]
      have h := ihr g (l + 1 / 100) hg
      simp only [one_div] at h
      simp [h, add_assoc]
    · rw [validLoop]
      simp only [switchLeakage_cons]
      simp [ihr g l hg]
    · rw [validLoop]
      simp only [switchLeakage_cons]
      simp [ihr g l hg]
    · rw [validLoop]
      simp only [switchLeakage_cons]
      simp [ihr g l hg]

theorem switchLeakage_perm {l1 l2 : List Component} (h : l1.Perm l2) :
    switchLeakage l1 = switchLeakage l2 := by
  unfold switchLeakage
  exact ((h.filter _).map _).sum_eq

theorem isValidConfiguration_catalog (cfg : List Component) (hcat : ∀ c ∈ cfg, c ∈ components)
    (requiredGain maxLeakage maxPower : ℚ) :
    isValidConfiguration cfg requiredGain maxLeakage maxPower =
      if ∃ c ∈ cfg, c.type = "amplifier" then false
      else decide (0 ≥ requiredGain ∧ switchLeakage cfg ≤ maxLeakage) := by
  unfold isValidConfiguration
  rw [validLoop_catalog cfg hcat 0 0 (by norm_num)]
  by_cases h : ∃ c ∈ cfg, c.type = "amplifier"
  · simp only [if_pos h]
  · simp only [if_neg h, zero_add]

theorem triple_subset_catalog (i j k : Fin components.length) :
    ∀ c ∈ [components.get i, components.get j, components.get k], c ∈ components := by
  intro c hc
  simp only [List.mem_cons, List.mem_singleton, List.not_mem_nil, or_false] at hc
  rcases hc with rfl | rfl | rfl <;> exact List.get_mem _ _ _

/-- C14: every ordered triple drawn from the compiled-in catalog that contains the catalog
amplifier (gain 20, `p1dB` 10) is rejected by `isValidConfiguration` whatever
`requiredGain`, `maxLeakage` and `maxPower` are; consequently, for catalog triples the
verdict does not depend on the order of the three components. -/
theorem isValidConfiguration_catalog_amplifier (i j k : Fin components.length)
    (requiredGain maxLeakage maxPower : ℚ) :
    (components.get ⟨0, by decide⟩ ∈ [components.get i, components.get j, components.get k] →
      isValidConfiguration [components.get i, components.get j, components.get k]
        requiredGain maxLeakage maxPower = false) ∧
    (∀ reordered : List Component,
      reordered.Perm [components.get i, components.get j, components.get k] →
      isValidConfiguration reordered requiredGain maxLeakage maxPower =
        isValidConfiguration [components.get i, components.get j, components.get k]
          requiredGain maxLeakage maxPower) := by
  have hcat := triple_subset_catalog i j k
  constructor
  · intro hmem
    rw [isValidConfiguration_catalog _ hcat]
    have hamp : ∃ c ∈ [components.get i, components.get j, components.get k],
        c.type = "amplifier" := ⟨_, hmem, by decide⟩
    rw [if_pos hamp]
  · intro reordered hperm
    have hcat2 : ∀ c ∈ reordered, c ∈ components := fun c hc => hcat c (hperm.mem_iff.mp hc)
    rw [isValidConfiguration_catalog _ hcat, isValidConfiguration_catalog _ hcat2,
      switchLeakage_perm hperm]
    have hiff : (∃ c ∈ reordered, c.type = "amplifier") ↔
        ∃ c ∈ [components.get i, components.get j, components.get k], c.type = "amplifier" :=
      ⟨fun ⟨c, hc, ht⟩ => ⟨c, hperm.mem_iff.mp hc, ht⟩,
        fun ⟨c, hc, ht⟩ => ⟨c, hperm.mem_iff.mpr hc, ht⟩⟩
    by_cases h : ∃ c ∈ [components.get i, components.get j, components.get k],
        c.type = "amplifier"
    · rw [if_pos h, if_pos (hiff.mpr h)]
    · rw [if_neg h, if_neg (fun h2 => h (hiff.mp h2))]

/-- C14, worked example: the catalog triple (4,1,0) contains the amplifier and is rejected
with required gain 0 and any leakage allowance, and so is its reordering (0,4,1). -/
theorem isValidConfiguration_catalog_amplifier_witness :
    isValidConfiguration
        [components.get ⟨4, by decide⟩, components.get ⟨1, by decide⟩,
          components.get ⟨0, by decide⟩] 0 1 10 = false ∧
    isValidConfiguration
        [components.get ⟨0, by decide⟩, components.get ⟨4, by decide⟩,
          components.get ⟨1, by decide⟩] 0 1 10 =
      isValidConfiguration
        [components.get ⟨4, by decide⟩, components.get ⟨1, by decide⟩,
          components.get ⟨0, by decide⟩] 0 1 10 :=
  ⟨(isValidConfiguration_catalog_amplifier ⟨4, by decide⟩ ⟨1, by decide⟩ ⟨0, by decide⟩
      0 1 10).1 (by decide!),
    (isValidConfiguration_catalog_amplifier ⟨4, by decide⟩ ⟨1, by decide⟩ ⟨0, by decide⟩
      0 1 10).2 _ (by decide!)⟩

/-- C15: `isValidConfiguration` is monotone in its thresholds: a configuration accepted
with `(requiredGain, maxLeakage)` is accepted with every `(requiredGain2, maxLeakage2)`
such that `requiredGain2 ≤ requiredGain` and `maxLeakage2 ≥ maxLeakage`; hence relaxing
the thresholds never turns a found result of the enumeration into none-found and never
raises the minimum cost. -/
theorem isValidConfiguration_monotone (configuration components : List Component)
    (requiredGain maxLeakage requiredGain2 maxLeakage2 maxPower : ℚ)
    (hgain : requiredGain2 ≤ requiredGain) (hleak : maxLeakage2 ≥ maxLeakage) :
    (isValidConfiguration configuration requiredGain maxLeakage maxPower = true →
      isValidConfiguration configuration requiredGain2 maxLeakage2 maxPower = true) ∧
    ((mainLoop components requiredGain maxLeakage maxPower).bestConfiguration ≠ [] →
      (mainLoop components requiredGain2 maxLeakage2 maxPower).bestConfiguration ≠ []) ∧
    (mainLoop components requiredGain2 maxLeakage2 maxPower).minCost ≤
      (mainLoop components requiredGain maxLeakage maxPower).minCost := by
  have hmono : ∀ cfg : List Component,
      isValidConfiguration cfg requiredGain maxLeakage maxPower = true →
      isValidConfiguration cfg requiredGain2 maxLeakage2 maxPower = true := by
    intro cfg h
    unfold isValidConfiguration at h ⊢
    cases hv : validLoop cfg 0 0 with
    | none => rw [hv] at h; exact absurd h (by simp)
    | some p =>
      obtain ⟨g, l⟩ := p
      rw [hv] at h
      simp only [decide_eq_true_eq] at h ⊢
      exact ⟨le_trans hgain h.1, le_trans h.2 hleak⟩
  have hq : ∀ i j k, qualifies components requiredGain maxLeakage maxPower i j k →
      qualifies components requiredGain2 maxLeakage2 maxPower i j k :=
    fun i j k h => ⟨h.1, hmono _ h.2⟩
  refine ⟨hmono configuration, ?_, ?_⟩
  · intro hrec
    rcases mainLoop_spec components requiredGain maxLeakage maxPower with
      ⟨hs, _⟩ | ⟨i, j, k, hqi, hlt, _, _⟩
    · rw [hs] at hrec
      exact absurd rfl hrec
    · rcases mainLoop_spec components requiredGain2 maxLeakage2 maxPower with
        ⟨_, hall⟩ | ⟨i2, j2, k2, _, _, hs2, _⟩
      · exact absurd hlt (not_lt.mpr (hall i j k (hq i j k hqi)))
      · rw [hs2]
        exact triple_ne_nil components i2 j2 k2
  · rcases mainLoop_spec components requiredGain maxLeakage maxPower with
      ⟨hs, _⟩ | ⟨i, j, k, hqi, hlt, hs, _⟩
    · rw [hs]
      rcases mainLoop_spec components requiredGain2 maxLeakage2 maxPower with
        ⟨hs2, _⟩ | ⟨i2, j2, k2, _, hlt2, hs2, _⟩
      · rw [hs2]
      · rw [hs2]
        exact le_of_lt hlt2
    · rw [hs]
      rcases mainLoop_spec components requiredGain2 maxLeakage2 maxPower with
        ⟨_, hall⟩ | ⟨i2, j2, k2, _, _, hs2, hmin2⟩
      · exact absurd hlt (not_lt.mpr (hall i j k (hq i j k hqi)))
      · rw [hs2]
        exact (hmin2 i j k (hq i j k hqi)).1

/-- C15, worked example: on the sample catalog nothing is found with required gain 45,
and relaxing the required gain to 15 finds a configuration of cost 17. -/
theorem isValidConfiguration_monotone_witness :
    ((15 : ℚ) ≤ 45 ∧ (1 / 20 : ℚ) ≥ 1 / 20) ∧
    (mainLoop sampleCatalog 45 (1 / 20) 10).bestConfiguration = [] ∧
    (mainLoop sampleCatalog 15 (1 / 20) 10).minCost = 17 ∧
    (mainLoop sampleCatalog 15 (1 / 20) 10).minCost ≤
      (mainLoop sampleCatalog 45 (1 / 20) 10).minCost :=
  ⟨by decide!, by decide!, by decide!,
    (isValidConfiguration_monotone [sampleAmplifier, sampleAmplifier, sampleDivider]
      sampleCatalog 45 (1 / 20) 15 (1 / 20) 10 (by decide!) (by decide!)).2.2⟩

/-! ### The validator with rounding additions -/

/-- The exact-arithmetic loop is the loop with exact addition for `add`. -/
theorem validLoopWith_exact (cfg : List Component) :
    ∀ g l : ℚ, validLoopWith (fun a b => a + b) cfg g l = validLoop cfg g l := by
  induction cfg with
  | nil => intro g l; rfl
  | cons c rest ih =>
    intro g l
    rw [validLoopWith, validLoop]
    simp only [ih]

theorem isValidConfigurationWith_exact (cfg : List Component)
    (requiredGain maxLeakage maxPower : ℚ) :
    isValidConfigurationWith (fun a b => a + b) cfg requiredGain maxLeakage maxPower =
      isValidConfiguration cfg requiredGain maxLeakage maxPower := by
  unfold isValidConfigurationWith isValidConfiguration
  rw [validLoopWith_exact]

theorem totalCostWith_exact (cfg : List Component) :
    totalCostWith (fun a b => a + b) cfg = totalCost cfg := rfl

/-- How the loop of `isValidConfiguration` ends, in terms of the two accumulations run to
the end without the early return: it reaches the end exactly when no amplifier sees a
running gain above its `p1dB`. -/
theorem validLoopWith_eq (add : ℚ → ℚ → ℚ) (cfg : List Component) :
    ∀ g l : ℚ,
      ((∀ (i : Nat) (h : i < cfg.length), (cfg.get ⟨i, h⟩).type = "amplifier" →
          (cfg.take (i + 1)).foldl
            (fun total c =>
              if c.type = "amplifier" ∨ c.type = "attenuator" then add total c.gain else total)
            g ≤ (cfg.get ⟨i, h⟩).p1dB) →
        validLoopWith add cfg g l =
          some (cfg.foldl
              (fun total c =>
                if c.type = "amplifier" ∨ c.type = "attenuator" then add total c.gain
                else total) g,
            cfg.foldl
              (fun total c => if c.type = "switch" then add total c.leakage else total) l)) ∧
      (¬ (∀ (i : Nat) (h : i < cfg.length), (cfg.get ⟨i, h⟩).type = "amplifier" →
          (cfg.take (i + 1)).foldl
            (fun total c =>
              if c.type = "amplifier" ∨ c.type = "attenuator" then add total c.gain else total)
            g ≤ (cfg.get ⟨i, h⟩).p1dB) →
        validLoopWith add cfg g l = none) := by
  induction cfg with
  | nil =>
    intro g l
    refine ⟨fun _ => rfl, fun h => absurd (fun i hi => absurd hi (by simp)) h⟩
  | cons c rest ih =>
    intro g l
    by_cases hc : c.type = "amplifier" ∧
        (if c.type = "amplifier" ∨ c.type = "attenuator" then add g c.gain else g) > c.p1dB
    · have hnone : validLoopWith add (c :: rest) g l = none := by
        rw [validLoopWith]
        exact if_pos hc
      refine ⟨fun hall => ?_, fun _ => hnone⟩
      have h0 := hall 0 (by simp) hc.1
      simp only [List.take_succ_cons, List.take_zero, List.foldl_cons, List.foldl_nil] at h0
      exact absurd h0 (not_le.mpr hc.2)
    · have hstep : validLoopWith add (c :: rest) g l =
          validLoopWith add rest
            (if c.type = "amplifier" ∨ c.type = "attenuator" then add g c.gain else g)
            (if c.type = "switch" then add l c.leakage else l) := by
        rw [validLoopWith]
        exact if_neg hc
      rw [hstep]
      obtain ⟨ih1, ih2⟩ := ih
        (if c.type = "amplifier" ∨ c.type = "attenuator" then add g c.gain else g)
        (if c.type = "switch" then add l c.leakage else l)
      constructor
      · intro hall
        rw [List.foldl_cons, List.foldl_cons]
        apply ih1
        intro i hi ht
        have := hall (i + 1) (by simpa using hi) ht
        simpa only [List.take_succ_cons, List.foldl_cons, List.get_cons_succ] using this
      · intro hnot
        apply ih2
        intro hall
        apply hnot
        intro i hi ht
        cases i with
        | zero =>
          simp only [List.take_succ_cons, List.take_zero, List.foldl_cons, List.foldl_nil]
          by_contra hgt
          exact hc ⟨ht, not_le.mp hgt⟩
        | succ i =>
          have := hall i (by simpa using hi) ht
          simpa only [List.take_succ_cons, List.foldl_cons, List.get_cons_succ] using this

/-- On a sequence without components of type "variable attenuator" or "fixed attenuator"
the gain accumulation of line 20 is the accumulation over the amplifier and attenuator
kinds. -/
theorem runningGainWith_eq_code (add : ℚ → ℚ → ℚ) (l : List Component)
    (hkinds : ∀ c ∈ l, c.type ≠ "variable attenuator" ∧ c.type ≠ "fixed attenuator") :
    ∀ g : ℚ,
      l.foldl
        (fun total c =>
          if c.type = "amplifier" ∨ c.type = "attenuator" ∨ c.type = "variable attenuator" ∨
              c.type = "fixed attenuator" then add total c.gain
          else total) g =
      l.foldl
        (fun total c =>
          if c.type = "amplifier" ∨ c.type = "attenuator" then add total c.gain else total)
        g := by
  induction l with
  | nil => intro g; rfl
  | cons c rest ih =>
    intro g
    have hc := hkinds c (List.mem_cons_self _ _)
    have hiff : (c.type = "amplifier" ∨ c.type = "attenuator" ∨
        c.type = "variable attenuator" ∨ c.type = "fixed attenuator") ↔
        (c.type = "amplifier" ∨ c.type = "attenuator") := by
      constructor
      · rintro (h | h | h | h)
        · exact Or.inl h
        · exact Or.inr h
        · exact absurd h hc.1
        · exact absurd h hc.2
      · rintro (h | h)
        · exact Or.inl h
        · exact Or.inr (Or.inl h)
    rw [List.foldl_cons, List.foldl_cons,
      ih (fun x hx => hkinds x (List.mem_cons_of_mem _ hx))]
    simp only [hiff]

/-- C1 (the claim as stated fails): on three amplifiers of gains `2^53`, 1 and 1 with
`p1dB` `2^53`, no switch, required gain 0 and max leakage 0, the double additions of
line 21 keep the running gain at `2^53`, so `isValidConfiguration` returns true, while the
sum of the gains up to and including the third amplifier is `2^53 + 2`, greater than its
`p1dB`: condition (a) of the claim is false. -/
theorem isValidConfiguration_exact_sum_fails :
    isValidConfigurationWith binary64Add roundingAmplifiers 0 0 0 = true ∧
    exactGainSum (roundingAmplifiers.take 3) = 9007199254740994 ∧
    ¬ (∀ (i : Nat) (h : i < roundingAmplifiers.length),
        (roundingAmplifiers.get ⟨i, h⟩).type = "amplifier" →
          exactGainSum (roundingAmplifiers.take (i + 1)) ≤
            (roundingAmplifiers.get ⟨i, h⟩).p1dB) := by
  decide!

/-- C1 (amended): for every configuration none of whose components has the type "variable
attenuator" or "fixed attenuator", `isValidConfiguration` returns true if and only if
(a) at every position holding an amplifier the running total gain, accumulated by the
code's double additions from 0.0 over the amplifier and attenuator components up to and
including that position, is not greater than that amplifier's `p1dB`, (b) the total gain
so accumulated over the whole sequence is at least `requiredGain`, and (c) the leakage so
accumulated over the switches is at most `maxLeakage`. In particular, once an amplifier's
running gain exceeds its `p1dB` the result is false whatever follows and whatever the
thresholds are. -/
theorem isValidConfigurationWith_iff (add : ℚ → ℚ → ℚ) (configuration : List Component)
    (requiredGain maxLeakage maxPower : ℚ)
    (hkinds : ∀ c ∈ configuration,
      c.type ≠ "variable attenuator" ∧ c.type ≠ "fixed attenuator") :
    (isValidConfigurationWith add configuration requiredGain maxLeakage maxPower = true ↔
      (∀ (i : Nat) (h : i < configuration.length),
          (configuration.get ⟨i, h⟩).type = "amplifier" →
            runningGainWith add (configuration.take (i + 1)) ≤
              (configuration.get ⟨i, h⟩).p1dB) ∧
        runningGainWith add configuration ≥ requiredGain ∧
        switchLeakageWith add configuration ≤ maxLeakage) ∧
    (∀ (pre post : List Component) (a : Component),
        configuration = pre ++ a :: post → a.type = "amplifier" →
          runningGainWith add (pre ++ [a]) > a.p1dB →
            isValidConfigurationWith add configuration requiredGain maxLeakage maxPower
              = false) := by
  have htake : ∀ n : Nat, runningGainWith add (configuration.take n) =
      (configuration.take n).foldl
        (fun total c =>
          if c.type = "amplifier" ∨ c.type = "attenuator" then add total c.gain else total)
        0 := fun n =>
    runningGainWith_eq_code add _ (fun c hc => hkinds c (List.mem_of_mem_take hc)) 0
  have hwhole : runningGainWith add configuration =
      configuration.foldl
        (fun total c =>
          if c.type = "amplifier" ∨ c.type = "attenuator" then add total c.gain else total)
        0 := runningGainWith_eq_code add _ hkinds 0
  obtain ⟨hok, hbad⟩ := validLoopWith_eq add configuration 0 0
  have hiff : isValidConfigurationWith add configuration requiredGain maxLeakage maxPower
        = true ↔
      (∀ (i : Nat) (h : i < configuration.length),
          (configuration.get ⟨i, h⟩).type = "amplifier" →
            runningGainWith add (configuration.take (i + 1)) ≤
              (configuration.get ⟨i, h⟩).p1dB) ∧
        runningGainWith add configuration ≥ requiredGain ∧
        switchLeakageWith add configuration ≤ maxLeakage := by
    simp only [htake, hwhole]
    by_cases hp : ∀ (i : Nat) (h : i < configuration.length),
        (configuration.get ⟨i, h⟩).type = "amplifier" →
          (configuration.take (i + 1)).foldl
            (fun total c =>
              if c.type = "amplifier" ∨ c.type = "attenuator" then add total c.gain else total)
            0 ≤ (configuration.get ⟨i, h⟩).p1dB
    · unfold isValidConfigurationWith switchLeakageWith
      rw [hok hp]
      simp only [decide_eq_true_eq]
      exact ⟨fun h => ⟨hp, h⟩, fun h => h.2⟩
    · unfold isValidConfigurationWith
      rw [hbad hp]
      exact ⟨fun h => absurd h (by simp), fun h => absurd h.1 hp⟩
  refine ⟨hiff, ?_⟩
  intro pre post a hcfg ht hgt
  have hnot : ¬ (isValidConfigurationWith add configuration requiredGain maxLeakage maxPower
      = true) := by
    intro hv
    have hall := (hiff.mp hv).1
    have hlen : pre.length < configuration.length := by simp [hcfg]
    have hget : configuration.get ⟨pre.length, hlen⟩ = a := by
      subst hcfg; simp [List.getElem_append_right]
    have h1 := hall pre.length hlen (by rw [hget]; exact ht)
    have htk : configuration.take (pre.length + 1) = pre ++ [a] := by
      subst hcfg
      simp [List.take_append_eq_append_take]
    rw [hget, htk] at h1
    exact absurd h1 (not_le.mpr hgt)
  simpa using hnot

/-- C1 (amended), worked example: with double additions, an attenuator of gain -15 before
the amplifier of gain 20 and `p1dB` 10 is accepted at required gain 5. -/
theorem isValidConfigurationWith_iff_witness :
    (∀ c ∈ ([⟨"attenuator", -15, 5, 0, 0⟩, ⟨"amplifier", 20, 50, 10, 0⟩,
        ⟨"power divider", -3, 15, 0, 0⟩] : List Component),
      c.type ≠ "variable attenuator" ∧ c.type ≠ "fixed attenuator") ∧
    isValidConfigurationWith binary64Add
      [⟨"attenuator", -15, 5, 0, 0⟩, ⟨"amplifier", 20, 50, 10, 0⟩,
        ⟨"power divider", -3, 15, 0, 0⟩] 5 (1 / 20) 10 = true :=
  ⟨by decide,
    ((isValidConfigurationWith_iff binary64Add
      [⟨"attenuator", -15, 5, 0, 0⟩, ⟨"amplifier", 20, 50, 10, 0⟩,
        ⟨"power divider", -3, 15, 0, 0⟩] 5 (1 / 20) 10 (by decide)).1).mpr (by decide!)⟩

/-! ### The enumeration with rounding additions -/

theorem loopBodyWith_exact (components : List Component)
    (requiredGain maxLeakage maxPower : ℚ) (s : BestResult) (i j k : Fin components.length) :
    loopBodyWith (fun a b => a + b) components requiredGain maxLeakage maxPower s i j k =
      loopBody components requiredGain maxLeakage maxPower s i j k := by
  unfold loopBodyWith loopBody
  simp only [isValidConfigurationWith_exact, totalCostWith_exact]

/-- The exact-arithmetic enumeration is the enumeration with exact addition for `add`. -/
theorem mainLoopWith_exact (components : List Component)
    (requiredGain maxLeakage maxPower : ℚ) :
    mainLoopWith (fun a b => a + b) components requiredGain maxLeakage maxPower =
      mainLoop components requiredGain maxLeakage maxPower := by
  unfold mainLoopWith mainLoop
  simp only [loopBodyWith_exact]

theorem loopBodyWith_eq (add : ℚ → ℚ → ℚ) (components : List Component)
    (requiredGain maxLeakage maxPower : ℚ)
    (s : BestResult) (i j k : Fin components.length) :
    loopBodyWith add components requiredGain maxLeakage maxPower s i j k =
      if qualifiesWith add components requiredGain maxLeakage maxPower i j k ∧
          totalCostWith add (triple components i j k) < s.minCost then
        { bestConfiguration := triple components i j k,
          minCost := totalCostWith add (triple components i j k) }
      else s := by
  have hpd := hasPowerDivider_triple components i j k
  show (if (components.get i).type ≠ "power divider" ∧
        (components.get j).type ≠ "power divider" ∧ (components.get k).type ≠ "power divider"
      then s
      else if isValidConfigurationWith add (triple components i j k) requiredGain maxLeakage
          maxPower = true then
        (if totalCostWith add (triple components i j k) < s.minCost then
          { bestConfiguration := triple components i j k,
            minCost := totalCostWith add (triple components i j k) }
        else s)
      else s) = _
  by_cases h : (components.get i).type ≠ "power divider" ∧
      (components.get j).type ≠ "power divider" ∧ (components.get k).type ≠ "power divider"
  · have hq : ¬ qualifiesWith add components requiredGain maxLeakage maxPower i j k :=
      fun hq => (hpd.mp hq.1) h
    rw [if_pos h, if_neg (fun hc => hq hc.1)]
  · rw [if_neg h]
    by_cases hv : isValidConfigurationWith add (triple components i j k) requiredGain
        maxLeakage maxPower = true
    · have hq : qualifiesWith add components requiredGain maxLeakage maxPower i j k :=
        ⟨hpd.mpr h, hv⟩
      rw [if_pos hv]
      by_cases hc : totalCostWith add (triple components i j k) < s.minCost
      · rw [if_pos hc, if_pos ⟨hq, hc⟩]
      · rw [if_neg hc, if_neg (fun h2 => hc h2.2)]
    · have hq : ¬ qualifiesWith add components requiredGain maxLeakage maxPower i j k :=
        fun hq => hv hq.2
      rw [if_neg hv, if_neg (fun hc => hq hc.1)]

/-- The three nested loops visit the index triples in the order of `indexTriples`. -/
theorem mainLoopWith_eq_stateAfterWith (add : ℚ → ℚ → ℚ) (components : List Component)
    (requiredGain maxLeakage maxPower : ℚ) :
    mainLoopWith add components requiredGain maxLeakage maxPower =
      stateAfterWith add components requiredGain maxLeakage maxPower
        (indexTriples components.length) := by
  unfold mainLoopWith stateAfterWith indexTriples
  rw [foldl_flatMap_eq]
  congr 1
  funext s i
  rw [foldl_flatMap_eq]
  congr 1
  funext s j
  rw [List.foldl_map]

/-- The state after any sequence of visited index triples: either nothing is recorded and
no visited qualifying triple has a computed cost below `DBL_MAX`, or the recorded state
is a visited qualifying triple whose computed cost is strictly below that of every
qualifying triple visited before it and not above that of any visited after it. -/
theorem stateAfterWith_cases (add : ℚ → ℚ → ℚ) (components : List Component)
    (requiredGain maxLeakage maxPower : ℚ)
    (visited : List (Fin components.length × Fin components.length × Fin components.length)) :
    (stateAfterWith add components requiredGain maxLeakage maxPower visited =
        { bestConfiguration := [], minCost := DBL_MAX } ∧
      ∀ t ∈ visited,
        qualifiesWith add components requiredGain maxLeakage maxPower t.1 t.2.1 t.2.2 →
        DBL_MAX ≤ totalCostWith add (triple components t.1 t.2.1 t.2.2)) ∨
    ∃ pre x post, visited = pre ++ x :: post ∧
      qualifiesWith add components requiredGain maxLeakage maxPower x.1 x.2.1 x.2.2 ∧
      totalCostWith add (triple components x.1 x.2.1 x.2.2) < DBL_MAX ∧
      stateAfterWith add components requiredGain maxLeakage maxPower visited =
        { bestConfiguration := triple components x.1 x.2.1 x.2.2,
          minCost := totalCostWith add (triple components x.1 x.2.1 x.2.2) } ∧
      (∀ y ∈ pre,
        qualifiesWith add components requiredGain maxLeakage maxPower y.1 y.2.1 y.2.2 →
        totalCostWith add (triple components x.1 x.2.1 x.2.2) <
          totalCostWith add (triple components y.1 y.2.1 y.2.2)) ∧
      (∀ y ∈ post,
        qualifiesWith add components requiredGain maxLeakage maxPower y.1 y.2.1 y.2.2 →
        totalCostWith add (triple components x.1 x.2.1 x.2.2) ≤
          totalCostWith add (triple components y.1 y.2.1 y.2.2)) := by
  have hfun : (fun (s : BestResult) (t : Fin components.length × Fin components.length ×
        Fin components.length) =>
        loopBodyWith add components requiredGain maxLeakage maxPower s t.1 t.2.1 t.2.2) =
      (fun s t =>
        if qualifiesWith add components requiredGain maxLeakage maxPower t.1 t.2.1 t.2.2 ∧
          totalCostWith add (triple components t.1 t.2.1 t.2.2) < s.minCost then
            ({ bestConfiguration := triple components t.1 t.2.1 t.2.2,
               minCost := totalCostWith add (triple components t.1 t.2.1 t.2.2) } : BestResult)
          else s) := by
    funext s t
    exact loopBodyWith_eq add components requiredGain maxLeakage maxPower s t.1 t.2.1 t.2.2
  unfold stateAfterWith
  rw [hfun]
  exact foldl_keep_cheapest
    (fun t : Fin components.length × Fin components.length × Fin components.length =>
      qualifiesWith add components requiredGain maxLeakage maxPower t.1 t.2.1 t.2.2)
    (fun t => triple components t.1 t.2.1 t.2.2)
    (fun t => totalCostWith add (triple components t.1 t.2.1 t.2.2)) DBL_MAX visited

/-- The member form of `stateAfterWith_cases`: a recorded state is a visited qualifying
triple of minimal computed cost among the visited qualifying triples. -/
theorem stateAfterWith_spec (add : ℚ → ℚ → ℚ) (components : List Component)
    (requiredGain maxLeakage maxPower : ℚ)
    (visited : List (Fin components.length × Fin components.length × Fin components.length)) :
    (stateAfterWith add components requiredGain maxLeakage maxPower visited =
        { bestConfiguration := [], minCost := DBL_MAX } ∧
      ∀ t ∈ visited,
        qualifiesWith add components requiredGain maxLeakage maxPower t.1 t.2.1 t.2.2 →
        DBL_MAX ≤ totalCostWith add (triple components t.1 t.2.1 t.2.2)) ∨
    ∃ x ∈ visited,
      qualifiesWith add components requiredGain maxLeakage maxPower x.1 x.2.1 x.2.2 ∧
      totalCostWith add (triple components x.1 x.2.1 x.2.2) < DBL_MAX ∧
      stateAfterWith add components requiredGain maxLeakage maxPower visited =
        { bestConfiguration := triple components x.1 x.2.1 x.2.2,
          minCost := totalCostWith add (triple components x.1 x.2.1 x.2.2) } ∧
      ∀ y ∈ visited,
        qualifiesWith add components requiredGain maxLeakage maxPower y.1 y.2.1 y.2.2 →
        totalCostWith add (triple components x.1 x.2.1 x.2.2) ≤
          totalCostWith add (triple components y.1 y.2.1 y.2.2) := by
  rcases stateAfterWith_cases add components requiredGain maxLeakage maxPower visited with
    h | ⟨pre, x, post, hL, hqx, hxM, hs, hpre, hpost⟩
  · exact Or.inl h
  · right
    refine ⟨x, by simp [hL], hqx, hxM, hs, ?_⟩
    intro y hmem hq
    rw [hL] at hmem
    rcases List.mem_append.mp hmem with hm | hm
    · exact le_of_lt (hpre y hm hq)
    · rcases List.mem_cons.mp hm with hm | hm
      · rw [hm]
      · exact hpost y hm hq

/-- C2 (the claim as stated fails): on the catalog of an amplifier of cost 1 and a power
divider of cost `2^53`, with required gain 15, the enumeration records the triple (0,1,0)
with `minCost` `2^53`, because the double additions of line 69 give `1 + 2^53 = 2^53` and
`2^53 + 1 = 2^53`; the sum of its three costs is `2^53 + 2`. -/
theorem mainLoop_minCost_not_exact_sum :
    mainLoopWith binary64Add roundingCatalog 15 (1 / 20) 10 =
      { bestConfiguration :=
          [roundingCatalog.get ⟨0, by decide⟩, roundingCatalog.get ⟨1, by decide⟩,
            roundingCatalog.get ⟨0, by decide⟩],
        minCost := 9007199254740992 } ∧
    exactCostSum (mainLoopWith binary64Add roundingCatalog 15 (1 / 20) 10).bestConfiguration =
      9007199254740994 ∧
    (mainLoopWith binary64Add roundingCatalog 15 (1 / 20) 10).minCost ≠
      exactCostSum (mainLoopWith binary64Add roundingCatalog 15 (1 / 20) 10).bestConfiguration := by
  decide!

/-- C2 (amended): if the enumeration in `main` records a best configuration, then that
configuration is a triple `[components[i], components[j], components[k]]` that contains a
power divider and is accepted by `isValidConfiguration`, the recorded `minCost` is the
total cost that the cost loop of lines 67-70 computes for it (double additions from 0.0 in
component order), and that cost is at most the so-computed total cost of every ordered
triple of catalog entries (repetition allowed) that contains a power divider and is
accepted. -/
theorem mainLoopWith_records_cheapest (add : ℚ → ℚ → ℚ) (components : List Component)
    (requiredGain maxLeakage maxPower : ℚ)
    (hrec : (mainLoopWith add components requiredGain maxLeakage maxPower).bestConfiguration
      ≠ []) :
    ∃ i j k : Fin components.length,
      (mainLoopWith add components requiredGain maxLeakage maxPower).bestConfiguration =
        [components.get i, components.get j, components.get k] ∧
      hasPowerDivider
        (mainLoopWith add components requiredGain maxLeakage maxPower).bestConfiguration ∧
      isValidConfigurationWith add
        (mainLoopWith add components requiredGain maxLeakage maxPower).bestConfiguration
        requiredGain maxLeakage maxPower = true ∧
      (mainLoopWith add components requiredGain maxLeakage maxPower).minCost =
        totalCostWith add
          (mainLoopWith add components requiredGain maxLeakage maxPower).bestConfiguration ∧
      ∀ i2 j2 k2 : Fin components.length,
        hasPowerDivider [components.get i2, components.get j2, components.get k2] →
        isValidConfigurationWith add [components.get i2, components.get j2, components.get k2]
          requiredGain maxLeakage maxPower = true →
        (mainLoopWith add components requiredGain maxLeakage maxPower).minCost ≤
          totalCostWith add [components.get i2, components.get j2, components.get k2] := by
  rw [mainLoopWith_eq_stateAfterWith] at hrec ⊢
  rcases stateAfterWith_spec add components requiredGain maxLeakage maxPower
      (indexTriples components.length) with ⟨hs, _⟩ | ⟨x, _, hq, _, hs, hmin⟩
  · rw [hs] at hrec
    exact absurd rfl hrec
  · rw [hs]
    refine ⟨x.1, x.2.1, x.2.2, rfl, hq.1, hq.2, rfl, ?_⟩
    intro i2 j2 k2 hpd hv
    exact hmin (i2, j2, k2) (mem_indexTriples _) ⟨hpd, hv⟩

/-- C2 (amended), worked example: with double additions the rounding catalog records a
configuration at required gain 15. -/
theorem mainLoopWith_records_cheapest_witness :
    (mainLoopWith binary64Add roundingCatalog 15 (1 / 20) 10).bestConfiguration ≠ [] ∧
    ∃ i j k : Fin roundingCatalog.length,
      (mainLoopWith binary64Add roundingCatalog 15 (1 / 20) 10).bestConfiguration =
        [roundingCatalog.get i, roundingCatalog.get j, roundingCatalog.get k] ∧
      hasPowerDivider
        (mainLoopWith binary64Add roundingCatalog 15 (1 / 20) 10).bestConfiguration ∧
      isValidConfigurationWith binary64Add
        (mainLoopWith binary64Add roundingCatalog 15 (1 / 20) 10).bestConfiguration
        15 (1 / 20) 10 = true ∧
      (mainLoopWith binary64Add roundingCatalog 15 (1 / 20) 10).minCost =
        totalCostWith binary64Add
          (mainLoopWith binary64Add roundingCatalog 15 (1 / 20) 10).bestConfiguration ∧
      ∀ i2 j2 k2 : Fin roundingCatalog.length,
        hasPowerDivider
          [roundingCatalog.get i2, roundingCatalog.get j2, roundingCatalog.get k2] →
        isValidConfigurationWith binary64Add
          [roundingCatalog.get i2, roundingCatalog.get j2, roundingCatalog.get k2]
          15 (1 / 20) 10 = true →
        (mainLoopWith binary64Add roundingCatalog 15 (1 / 20) 10).minCost ≤
          totalCostWith binary64Add
            [roundingCatalog.get i2, roundingCatalog.get j2, roundingCatalog.get k2] :=
  ⟨by decide!,
    mainLoopWith_records_cheapest binary64Add roundingCatalog 15 (1 / 20) 10 (by decide!)⟩

/-- C5 (the claim as stated fails), in two ways. On the sentinel catalog with required gain
20 the index triples (0,0,1), (0,1,0) and (1,0,0) are the accepted triples with a power
divider and share the minimal total cost `DBL_MAX`, which is not below the initial
`minCost`: nothing is recorded. On the rounding catalog with required gain 15 the index
triples (0,0,1), (0,1,0) and (1,0,0) share the minimal sum of costs `2^53 + 2`, but the
double additions of line 69 give (0,1,0) the cost `2^53`, below the `2^53 + 2` computed
for (0,0,1): the recorded configuration is that of (0,1,0), not of the lexicographically
smallest (0,0,1). -/
theorem mainLoop_tie_break_fails :
    (qualifiesWith binary64Add sentinelCatalog 20 0 10
        ⟨0, by decide⟩ ⟨0, by decide⟩ ⟨1, by decide⟩ ∧
      (∀ i2 j2 k2 : Fin sentinelCatalog.length,
        qualifiesWith binary64Add sentinelCatalog 20 0 10 i2 j2 k2 →
        exactCostSum (triple sentinelCatalog i2 j2 k2) =
            exactCostSum (triple sentinelCatalog ⟨0, by decide⟩ ⟨0, by decide⟩ ⟨1, by decide⟩) ∧
          lexLe ⟨0, by decide⟩ ⟨0, by decide⟩ ⟨1, by decide⟩ i2 j2 k2) ∧
      (mainLoopWith binary64Add sentinelCatalog 20 0 10).bestConfiguration = []) ∧
    (qualifiesWith binary64Add roundingCatalog 15 (1 / 20) 10
        ⟨0, by decide⟩ ⟨0, by decide⟩ ⟨1, by decide⟩ ∧
      (∀ i2 j2 k2 : Fin roundingCatalog.length,
        qualifiesWith binary64Add roundingCatalog 15 (1 / 20) 10 i2 j2 k2 →
        exactCostSum (triple roundingCatalog ⟨0, by decide⟩ ⟨0, by decide⟩ ⟨1, by decide⟩) ≤
            exactCostSum (triple roundingCatalog i2 j2 k2) ∧
          (exactCostSum (triple roundingCatalog i2 j2 k2) =
              exactCostSum
                (triple roundingCatalog ⟨0, by decide⟩ ⟨0, by decide⟩ ⟨1, by decide⟩) →
            lexLe ⟨0, by decide⟩ ⟨0, by decide⟩ ⟨1, by decide⟩ i2 j2 k2)) ∧
      (mainLoopWith binary64Add roundingCatalog 15 (1 / 20) 10).bestConfiguration =
        triple roundingCatalog ⟨0, by decide⟩ ⟨1, by decide⟩ ⟨0, by decide⟩ ∧
      (mainLoopWith binary64Add roundingCatalog 15 (1 / 20) 10).bestConfiguration ≠
        triple roundingCatalog ⟨0, by decide⟩ ⟨0, by decide⟩ ⟨1, by decide⟩) := by
  decide!

/-- C5 (amended): tie-break of the enumeration in `main`, with total costs as the cost loop
of lines 67-70 computes them. When the index triple `(i, j, k)` contains a power divider,
is accepted by `isValidConfiguration`, has a computed total cost below the initial
sentinel `DBL_MAX` that is minimal among such triples, and is lexicographically smallest
(`i` most significant, then `j`, then `k`) among those of that minimal computed cost, the
recorded best configuration is the one built from `(i, j, k)`: the first one met in the
nested iteration. -/
theorem mainLoopWith_tie_break (add : ℚ → ℚ → ℚ) (components : List Component)
    (requiredGain maxLeakage maxPower : ℚ) (i j k : Fin components.length)
    (hq : qualifiesWith add components requiredGain maxLeakage maxPower i j k)
    (hbelow : totalCostWith add (triple components i j k) < DBL_MAX)
    (hmin : ∀ i2 j2 k2, qualifiesWith add components requiredGain maxLeakage maxPower i2 j2 k2 →
      totalCostWith add (triple components i j k) ≤
        totalCostWith add (triple components i2 j2 k2))
    (hfirst : ∀ i2 j2 k2,
      qualifiesWith add components requiredGain maxLeakage maxPower i2 j2 k2 →
      totalCostWith add (triple components i2 j2 k2) =
        totalCostWith add (triple components i j k) →
      lexLe i j k i2 j2 k2) :
    (mainLoopWith add components requiredGain maxLeakage maxPower).bestConfiguration =
      [components.get i, components.get j, components.get k] := by
  rw [mainLoopWith_eq_stateAfterWith]
  have hpw := pairwise_indexTriples components.length
  rcases stateAfterWith_cases add components requiredGain maxLeakage maxPower
      (indexTriples components.length) with
    ⟨_, hall⟩ | ⟨pre, x, post, hL, hqx, _, hs, hpre, hpost⟩
  · exact absurd hbelow (not_lt.mpr (hall (i, j, k) (mem_indexTriples _) hq))
  · rw [hs]
    have hmem : (i, j, k) ∈ indexTriples components.length := mem_indexTriples _
    rw [hL] at hmem hpw
    rw [List.pairwise_append] at hpw
    obtain ⟨_, hpw2, _⟩ := hpw
    rw [List.pairwise_cons] at hpw2
    have hle : totalCostWith add (triple components i j k) ≤
        totalCostWith add (triple components x.1 x.2.1 x.2.2) := hmin x.1 x.2.1 x.2.2 hqx
    rcases List.mem_append.mp hmem with hm | hm
    · exact absurd (hpre (i, j, k) hm hq) (not_lt.mpr hle)
    · rcases List.mem_cons.mp hm with hm | hm
      · rw [← hm]
        rfl
      · have hlex0 : lexLe x.1 x.2.1 x.2.2 i j k := (hpw2.1 (i, j, k) hm).2
        have hge : totalCostWith add (triple components x.1 x.2.1 x.2.2) ≤
            totalCostWith add (triple components i j k) := hpost (i, j, k) hm hq
        have hlex : lexLe i j k x.1 x.2.1 x.2.2 :=
          hfirst x.1 x.2.1 x.2.2 hqx (le_antisymm hge hle)
        obtain ⟨e1, e2, e3⟩ := lexLe_antisymm hlex hlex0
        rw [← e1, ← e2, ← e3]
        rfl

/-- C5 (amended), worked example: on the sample catalog with double additions the index
triples (0,0,1), (0,1,0) and (1,0,0) share the minimal computed cost 17 and the recorded
configuration is the one of (0,0,1). -/
theorem mainLoopWith_tie_break_witness :
    (totalCostWith binary64Add
        (triple sampleCatalog ⟨0, by decide⟩ ⟨1, by decide⟩ ⟨0, by decide⟩) =
        totalCostWith binary64Add
          (triple sampleCatalog ⟨0, by decide⟩ ⟨0, by decide⟩ ⟨1, by decide⟩) ∧
      qualifiesWith binary64Add sampleCatalog 15 (1 / 20) 10
        ⟨0, by decide⟩ ⟨1, by decide⟩ ⟨0, by decide⟩) ∧
    (mainLoopWith binary64Add sampleCatalog 15 (1 / 20) 10).bestConfiguration =
      [sampleCatalog.get ⟨0, by decide⟩, sampleCatalog.get ⟨0, by decide⟩,
        sampleCatalog.get ⟨1, by decide⟩] :=
  ⟨by decide!,
    mainLoopWith_tie_break binary64Add sampleCatalog 15 (1 / 20) 10
      ⟨0, by decide⟩ ⟨0, by decide⟩ ⟨1, by decide⟩
      (by decide!) (by decide!) (by decide!) (by decide!)⟩

theorem loopBodyWith_minCost_le (add : ℚ → ℚ → ℚ) (components : List Component)
    (requiredGain maxLeakage maxPower : ℚ) (s : BestResult) (i j k : Fin components.length) :
    (loopBodyWith add components requiredGain maxLeakage maxPower s i j k).minCost ≤
      s.minCost := by
  rw [loopBodyWith_eq]
  by_cases h : qualifiesWith add components requiredGain maxLeakage maxPower i j k ∧
      totalCostWith add (triple components i j k) < s.minCost
  · rw [if_pos h]
    exact le_of_lt h.2
  · rw [if_neg h]

/-- C12 (the claim as stated fails): on the rounding catalog with required gain 15, after
the index triples (0,0,0), (0,0,1) and (0,1,0) the recorded configuration is that of
(0,1,0) and `minCost` is `2^53`, the cost that the double additions of line 69 compute for
it, while the sum of its costs is `2^53 + 2`, as is the sum of costs of each qualifying
triple visited so far. -/
theorem bestResult_minCost_not_exact_sum :
    stateAfterWith binary64Add roundingCatalog 15 (1 / 20) 10
        [(⟨0, by decide⟩, ⟨0, by decide⟩, ⟨0, by decide⟩),
          (⟨0, by decide⟩, ⟨0, by decide⟩, ⟨1, by decide⟩),
          (⟨0, by decide⟩, ⟨1, by decide⟩, ⟨0, by decide⟩)] =
      { bestConfiguration := triple roundingCatalog ⟨0, by decide⟩ ⟨1, by decide⟩ ⟨0, by decide⟩,
        minCost := 9007199254740992 } ∧
    exactCostSum (triple roundingCatalog ⟨0, by decide⟩ ⟨1, by decide⟩ ⟨0, by decide⟩) =
      9007199254740994 ∧
    exactCostSum (triple roundingCatalog ⟨0, by decide⟩ ⟨0, by decide⟩ ⟨1, by decide⟩) =
      9007199254740994 ∧
    ¬ qualifiesWith binary64Add roundingCatalog 15 (1 / 20) 10
      ⟨0, by decide⟩ ⟨0, by decide⟩ ⟨0, by decide⟩ := by
  decide!

/-- C12 (amended): best-result state invariant of the enumeration in `main`, with total
costs as the cost loop of lines 67-70 computes them. The state starts as (no
configuration, sentinel cost) and the result of `main` is the state after all index
triples in iteration order; processing a candidate triple never increases `minCost`; and
at every point where a configuration is recorded, it has exactly three components,
contains a power divider, is accepted by `isValidConfiguration`, and `minCost` equals the
total cost computed for it and is the minimum of the computed total costs of the
qualifying accepted triples visited so far. -/
theorem bestResultWith_invariant (add : ℚ → ℚ → ℚ) (components : List Component)
    (requiredGain maxLeakage maxPower : ℚ)
    (visited : List (Fin components.length × Fin components.length × Fin components.length))
    (i j k : Fin components.length) :
    stateAfterWith add components requiredGain maxLeakage maxPower [] =
        { bestConfiguration := [], minCost := DBL_MAX } ∧
    mainLoopWith add components requiredGain maxLeakage maxPower =
        stateAfterWith add components requiredGain maxLeakage maxPower
          (indexTriples components.length) ∧
    stateAfterWith add components requiredGain maxLeakage maxPower (visited ++ [(i, j, k)]) =
        loopBodyWith add components requiredGain maxLeakage maxPower
          (stateAfterWith add components requiredGain maxLeakage maxPower visited) i j k ∧
    (stateAfterWith add components requiredGain maxLeakage maxPower
        (visited ++ [(i, j, k)])).minCost ≤
      (stateAfterWith add components requiredGain maxLeakage maxPower visited).minCost ∧
    ((stateAfterWith add components requiredGain maxLeakage maxPower visited).bestConfiguration
        ≠ [] →
      (stateAfterWith add components requiredGain maxLeakage maxPower
        visited).bestConfiguration.length = 3 ∧
      hasPowerDivider
        (stateAfterWith add components requiredGain maxLeakage maxPower
          visited).bestConfiguration ∧
      isValidConfigurationWith add
        (stateAfterWith add components requiredGain maxLeakage maxPower
          visited).bestConfiguration
        requiredGain maxLeakage maxPower = true ∧
      (stateAfterWith add components requiredGain maxLeakage maxPower visited).minCost =
        totalCostWith add
          (stateAfterWith add components requiredGain maxLeakage maxPower
            visited).bestConfiguration ∧
      (∃ t ∈ visited,
        qualifiesWith add components requiredGain maxLeakage maxPower t.1 t.2.1 t.2.2 ∧
        (stateAfterWith add components requiredGain maxLeakage maxPower visited).minCost =
          totalCostWith add (triple components t.1 t.2.1 t.2.2)) ∧
      ∀ t ∈ visited,
        qualifiesWith add components requiredGain maxLeakage maxPower t.1 t.2.1 t.2.2 →
        (stateAfterWith add components requiredGain maxLeakage maxPower visited).minCost ≤
          totalCostWith add (triple components t.1 t.2.1 t.2.2)) := by
  have happ : stateAfterWith add components requiredGain maxLeakage maxPower
        (visited ++ [(i, j, k)]) =
      loopBodyWith add components requiredGain maxLeakage maxPower
        (stateAfterWith add components requiredGain maxLeakage maxPower visited) i j k := by
    unfold stateAfterWith
    rw [List.foldl_append]
    rfl
  refine ⟨rfl, mainLoopWith_eq_stateAfterWith add components requiredGain maxLeakage maxPower,
    happ, ?_, ?_⟩
  · rw [happ]
    exact loopBodyWith_minCost_le add components requiredGain maxLeakage maxPower _ i j k
  · intro hrec
    rcases stateAfterWith_spec add components requiredGain maxLeakage maxPower visited with
      ⟨hs, _⟩ | ⟨t, ht, hq, _, hs, hmin⟩
    · rw [hs] at hrec
      exact absurd rfl hrec
    · rw [hs]
      exact ⟨rfl, hq.1, hq.2, rfl, ⟨t, ht, hq, rfl⟩, hmin⟩

/-- C12 (amended), worked example: on the rounding catalog with double additions, after
the index triples (0,0,0), (0,0,1) and (0,1,0) a configuration is recorded, it has three
components and `minCost` is the cost computed for it. -/
theorem bestResultWith_invariant_witness :
    (stateAfterWith binary64Add roundingCatalog 15 (1 / 20) 10
        [(⟨0, by decide⟩, ⟨0, by decide⟩, ⟨0, by decide⟩),
          (⟨0, by decide⟩, ⟨0, by decide⟩, ⟨1, by decide⟩),
          (⟨0, by decide⟩, ⟨1, by decide⟩, ⟨0, by decide⟩)]).bestConfiguration ≠ [] ∧
    (stateAfterWith binary64Add roundingCatalog 15 (1 / 20) 10
        [(⟨0, by decide⟩, ⟨0, by decide⟩, ⟨0, by decide⟩),
          (⟨0, by decide⟩, ⟨0, by decide⟩, ⟨1, by decide⟩),
          (⟨0, by decide⟩, ⟨1, by decide⟩, ⟨0, by decide⟩)]).bestConfiguration.length = 3 ∧
    (stateAfterWith binary64Add roundingCatalog 15 (1 / 20) 10
        [(⟨0, by decide⟩, ⟨0, by decide⟩, ⟨0, by decide⟩),
          (⟨0, by decide⟩, ⟨0, by decide⟩, ⟨1, by decide⟩),
          (⟨0, by decide⟩, ⟨1, by decide⟩, ⟨0, by decide⟩)]).minCost =
      totalCostWith binary64Add
        (stateAfterWith binary64Add roundingCatalog 15 (1 / 20) 10
          [(⟨0, by decide⟩, ⟨0, by decide⟩, ⟨0, by decide⟩),
            (⟨0, by decide⟩, ⟨0, by decide⟩, ⟨1, by decide⟩),
            (⟨0, by decide⟩, ⟨1, by decide⟩, ⟨0, by decide⟩)]).bestConfiguration :=
  ⟨by decide!,
    ((bestResultWith_invariant binary64Add roundingCatalog 15 (1 / 20) 10
        [(⟨0, by decide⟩, ⟨0, by decide⟩, ⟨0, by decide⟩),
          (⟨0, by decide⟩, ⟨0, by decide⟩, ⟨1, by decide⟩),
          (⟨0, by decide⟩, ⟨1, by decide⟩, ⟨0, by decide⟩)]
        ⟨0, by decide⟩ ⟨0, by decide⟩ ⟨0, by decide⟩).2.2.2.2 (by decide!)).1,
    ((bestResultWith_invariant binary64Add roundingCatalog 15 (1 / 20) 10
        [(⟨0, by decide⟩, ⟨0, by decide⟩, ⟨0, by decide⟩),
          (⟨0, by decide⟩, ⟨0, by decide⟩, ⟨1, by decide⟩),
          (⟨0, by decide⟩, ⟨1, by decide⟩, ⟨0, by decide⟩)]
        ⟨0, by decide⟩ ⟨0, by decide⟩ ⟨0, by decide⟩).2.2.2.2 (by decide!)).2.2.2.1⟩

/-! ### Checks of the binary64 addition -/

/-- Sample values of `binary64Add`: small integers add exactly, `2^53 + 1` is a tie that
goes to the even neighbour `2^53`, `0 + 1/100` is the double nearest to 0.01, the sum of
`DBL_MAX` and half a unit in its last place overflows, and an infinite operand is kept. -/
theorem binary64Add_samples :
    binary64Add 20 (-3) = 17 ∧
    binary64Add 9007199254740992 1 = 9007199254740992 ∧
    binary64Add 9007199254740992 3 = 9007199254740996 ∧
    binary64Add 0 (1 / 100) = 5764607523034235 / 576460752303423488 ∧
    binary64Add DBL_MAX 0 = DBL_MAX ∧
    binary64Add DBL_MAX (2 ^ 969) = DBL_MAX ∧
    binary64Add DBL_MAX (2 ^ 970) = DBL_INF ∧
    binary64Add DBL_MAX DBL_MAX = DBL_INF ∧
    binary64Add DBL_INF (-DBL_MAX) = DBL_INF ∧
    DBL_MAX < DBL_INF := by
  decide!

/-- On the compiled-in catalog and constants the enumeration with double additions ends in
the same state as the enumeration with exact additions. -/
theorem mainLoopWith_compiled_in :
    mainLoopWith binary64Add components requiredGain maxLeakage maxPower =
      mainLoop components requiredGain maxLeakage maxPower := by
  decide!
